import Mathlib

/-!
# Poisson disk sampling (`Poisson.cpp`, `Poisson.h`)

A shallow embedding of the sampler of `src/cpp/Poisson.cpp` and of the two
drivers `gen_circ_distribution` and `gen_rect_distribution`.

## Modelling conventions

* `float` and `double` values are elements of an ordered field `K` with a floor
  function (`ℚ` when a run is evaluated, `ℝ` for the ideal semantics); every
  arithmetic operation is exact, rounding is not modelled.
* A comparison `sqrt(a) < b` is decided exactly, without computing the root
  (`sqrtLt`).  Where the value of a root or of a trigonometric function flows
  into later arithmetic (`sqrt(2.0f)`, `sqrt(float(2 * NumPoints))`,
  `cos(Angle)`, `sin(Angle)`, `M_PI`) it is supplied by the record `Lib`.
* The process-wide variables (`rscat`, `ff`, `rdisk`, `distance_border`, `w`,
  `h`, `NumPoints`, `MinDistance`, `gen`) are the record `Globals`, passed in
  and returned explicitly.
* The generator `gen` is a stream of draws with a read position.  A draw is read
  either through `dis(0.0, 1.0)` (`RandomFloat`) or through a
  `uniform_int_distribution` (`PopRandom`).
* An `int` is an integer.  The conversion `static_cast<int>` that computes
  `NumPoints` and the product `2 * NumPoints` are those of the 32-bit `int`
  (`castInt`, `wrapInt`); where C++ leaves the result undefined they have the
  value that x86 gives.  Cell indices and the sides of the grid are not bounded,
  and the memory of the grid is not limited.
* An unbounded loop takes a fuel argument and yields `Fault.fuel` when the fuel
  is used up.  An access outside the allocated range of a `std::vector` yields
  `Fault.range`.  Console output is not modelled.
* A quotient whose divisor is zero has the value the field gives it, where IEEE
  arithmetic gives an infinity or a NaN.  The one such quotient on a path the
  claims follow, `1. / sqrt(float(2 * NumPoints))` for `NumPoints = 0`, is
  modelled with its IEEE value (`Flt`, `GeneratePoissonPointsAtInfinity`);
  every statement that depends on the value of another quotient assumes that its
  divisor is positive.
-/

namespace Poisson

/-- Ways in which a run fails to return a list. -/
inductive Fault where
  /-- A loop was still running when the fuel was used up. -/
  | fuel
  /-- An element outside the allocated range of a vector was accessed. -/
  | range
  /-- A value that is not a finite number was converted to `int`. -/
  | nonfinite
deriving DecidableEq, Repr

/-- The generator `gen` (with the distributions reading it): `real n` is the
value of the `n`-th draw when it is read through `dis(0.0, 1.0)`, `index n` its
value when it is read through a `uniform_int_distribution`, `pos` the number of
draws made so far. -/
structure Gen (K : Type) where
  real : Nat → K
  index : Nat → Nat
  pos : Nat

/-- Values supplied by the C++ runtime: `<cmath>` and the seeding of
`std::mt19937`. -/
structure Lib (K : Type) where
  /-- The function `sqrt`. -/
  sqrt : K → K
  /-- The function `cos`. -/
  cos : K → K
  /-- The function `sin`. -/
  sin : K → K
  /-- The constant `M_PI`. -/
  pi : K
  /-- The state of `gen` after `gen.seed(seed)`. -/
  seed : Nat → Gen K

/-- The struct `sPoint` of `Poisson.h`. -/
structure sPoint (K : Type) where
  x : K
  y : K
  m_Valid : Bool
deriving DecidableEq

/-- The struct `sGridPoint`. -/
structure sGridPoint where
  x : Int
  y : Int
deriving DecidableEq, Repr

/-- A `float` that may fail to be finite: the value of `MinDistance` computed
by a driver. -/
inductive Flt (K : Type) where
  | finite (v : K)
  | infinity
  | nan

/-- The process-wide variables of `Poisson.cpp`. -/
structure Globals (K : Type) where
  rscat : K
  ff : K
  rdisk : K
  distance_border : K
  w : K
  h : K
  NumPoints : Int
  MinDistance : Flt K
  gen : Gen K

/-- The global `k`, the number of candidates generated around a point. -/
def k : Int := 30

section Defs

variable {K : Type} [LinearOrderedField K] [FloorRing K]

/-- The default constructor `sPoint()`. -/
def sPoint.empty : sPoint K := ⟨0, 0, false⟩

/-- The constructor `sPoint(X, Y)`. -/
def sPoint.new (X Y : K) : sPoint K := ⟨X, Y, true⟩

/-- The integer part of a finite value, toward zero: the result of `(int)v`
whenever that integer is representable in `int`.  `ImageToGrid` reads it as the
cell index for every quotient; an index that no `int` represents names a cell
outside every grid whose sides are `int`s. -/
def truncInt (v : K) : Int := if 0 ≤ v then Int.floor v else Int.ceil v

/-- The conversion `static_cast<int>(v)` of a finite value to the 32-bit `int`,
with which the drivers compute `NumPoints`.  When the integer part of `v` is not
representable the conversion is undefined; the value here is `INT_MIN`, the one
that the conversion instruction of x86 returns. -/
def castInt (v : K) : Int :=
  if -2 ^ 31 ≤ truncInt v ∧ truncInt v < 2 ^ 31 then truncInt v else -2 ^ 31

/-- The `int` that an arithmetic operation on `int`s yields when its exact
result is `n`: the representative of `n` modulo `2^32` in the range of `int`
(two's complement; an overflow is undefined in C++, and wraps on the usual
targets). -/
def wrapInt (n : Int) : Int := (n + 2 ^ 31) % 2 ^ 32 - 2 ^ 31

/-- The conversion of an `int` to `size_t`. -/
def toSizeT (n : Int) : Nat := (n % 2 ^ 64).toNat

/-- The comparison `sqrt(a) < b` for `0 ≤ a`, decided exactly. -/
def sqrtLt (a b : K) : Bool := decide (0 < b ∧ a < b * b)

/-- The integers `lo, lo + 1, ..., hi - 1` visited by
`for (int i = lo; i < hi; i++)`. -/
def intRange (lo hi : Int) : List Int :=
  (List.range (hi - lo).toNat).map fun (n : Nat) => lo + (n : Int)

/-- The method `sPoint::IsInCircle`. -/
def sPoint.IsInCircle (g : Globals K) (P : sPoint K) : Bool :=
  let fx := 2 * (P.x - 1 / 2)
  let fy := 2 * (P.y - 1 / 2)
  sqrtLt (fx * fx + fy * fy) (1 - (g.rscat + g.distance_border) / g.rdisk)

/-- The method `sPoint::IsInRectangle`. -/
def sPoint.IsInRectangle (g : Globals K) (P : sPoint K) : Bool :=
  decide ((g.rscat + g.distance_border) / g.w ≤ P.x) &&
  decide ((g.rscat + g.distance_border) / g.h ≤ P.y) &&
  decide (P.x ≤ 1 - (g.rscat + g.distance_border) / g.w) &&
  decide (P.y ≤ 1 - (g.rscat + g.distance_border) / g.h)

/-- The test `Circle ? P.IsInCircle() : P.IsInRectangle()`. -/
def Fits (Circle : Bool) (g : Globals K) (P : sPoint K) : Bool :=
  if Circle then P.IsInCircle g else P.IsInRectangle g

/-- The function `RandomFloat`: one draw read through `dis(0.0, 1.0)`. -/
def RandomFloat (gen : Gen K) : K × Gen K :=
  (gen.real gen.pos, { gen with pos := gen.pos + 1 })

/-- The radicand of `GetDistance`: the squared Euclidean distance. -/
def GetDistanceSq (P1 P2 : sPoint K) : K :=
  (P1.x - P2.x) * (P1.x - P2.x) + (P1.y - P2.y) * (P1.y - P2.y)

/-- The comparison `GetDistance(P1, P2) < d`. -/
def GetDistanceLt (P1 P2 : sPoint K) (d : K) : Bool :=
  sqrtLt (GetDistanceSq P1 P2) d

/-- The function `ImageToGrid`.  Each conversion `(int)` is read as the integer
part of the quotient. -/
def ImageToGrid (P : sPoint K) (CellSize : K) : sGridPoint :=
  ⟨truncInt (P.x / CellSize), truncInt (P.y / CellSize)⟩

/-- The struct `sGrid`: `m_Grid` has `m_H` rows of `m_W` points each; `m_Grid i j`
is the element `m_Grid[i][j]`. -/
structure sGrid (K : Type) where
  m_W : Int
  m_H : Int
  m_CellSize : K
  m_Grid : Int → Int → sPoint K

/-- The constructor `sGrid(W, H, CellSize)`: every element is `sPoint()`. -/
def sGrid.new (W H : Int) (CellSize : K) : sGrid K :=
  ⟨W, H, CellSize, fun _ _ => sPoint.empty⟩

/-- The assignment `m_Grid[G.x][G.y] = P`. -/
def sGrid.store (grid : sGrid K) (G : sGridPoint) (P : sPoint K) :
    Except Fault (sGrid K) :=
  if 0 ≤ G.x ∧ G.x < grid.m_H ∧ 0 ≤ G.y ∧ G.y < grid.m_W then
    .ok { grid with
      m_Grid := fun i j => if i = G.x ∧ j = G.y then P else grid.m_Grid i j }
  else .error Fault.range

/-- The method `sGrid::Insert`. -/
def sGrid.Insert (grid : sGrid K) (P : sPoint K) : Except Fault (sGrid K) :=
  grid.store (ImageToGrid P grid.m_CellSize) P

/-- The method `sGrid::IsInNeighbourhood`.  Its guard keeps the reads inside the
allocated range when `m_W = m_H`, as in every grid that the sampler builds. -/
def sGrid.IsInNeighbourhood (grid : sGrid K) (Point : sPoint K)
    (MinDist CellSize : K) : Bool :=
  let G := ImageToGrid Point CellSize
  let D : Int := 5
  (intRange (G.x - D) (G.x + D)).any fun i =>
    (intRange (G.y - D) (G.y + D)).any fun j =>
      decide (0 ≤ i ∧ i < grid.m_W ∧ 0 ≤ j ∧ j < grid.m_H) &&
        ((grid.m_Grid i j).m_Valid && GetDistanceLt (grid.m_Grid i j) Point MinDist)

/-- The function `PopRandom`: the drawn index, read through
`uniform_int_distribution<>(0, Points.size() - 1)`, is removed from `Points`. -/
def PopRandom (Points : List (sPoint K)) (gen : Gen K) :
    Except Fault (sPoint K × List (sPoint K) × Gen K) :=
  let Idx := gen.index gen.pos % Points.length
  match Points[Idx]? with
  | some P => .ok (P, Points.eraseIdx Idx, { gen with pos := gen.pos + 1 })
  | none => .error Fault.range

/-- The function `GenerateRandomPointAround`. -/
def GenerateRandomPointAround (lib : Lib K) (P : sPoint K) (MinDist : K)
    (gen : Gen K) : sPoint K × Gen K :=
  let R1 := (RandomFloat gen).1
  let gen1 := (RandomFloat gen).2
  let R2 := (RandomFloat gen1).1
  let gen2 := (RandomFloat gen1).2
  let Radius := MinDist * (R1 + 1)
  let Angle := 2 * lib.pi * R2
  let X := P.x + Radius * lib.cos Angle
  let Y := P.y + Radius * lib.sin Angle
  (sPoint.new X Y, gen2)

/-- The local variables of `GeneratePoissonPoints` that its loops update. -/
structure Sampler (K : Type) where
  ProcessList : List (sPoint K)
  SamplePoints : List (sPoint K)
  Grid : sGrid K
  gen : Gen K

/-- The `do ... while` loop of `GeneratePoissonPoints` that looks for the first
point; one unit of fuel per iteration. -/
def seedLoop (Circle : Bool) (g : Globals K) : Nat → Gen K →
    Except Fault (sPoint K × Gen K)
  | 0, _ => .error Fault.fuel
  | fuel + 1, gen =>
    let X := (RandomFloat gen).1
    let gen1 := (RandomFloat gen).2
    let Y := (RandomFloat gen1).1
    let gen2 := (RandomFloat gen1).2
    let FirstPoint := sPoint.new X Y
    if !Fits Circle g FirstPoint then seedLoop Circle g fuel gen2
    else .ok (FirstPoint, gen2)

/-- The `for` loop of `GeneratePoissonPoints`, with the number of iterations
left as first argument. -/
def expand (lib : Lib K) (g : Globals K) (Circle : Bool) (MinDist CellSize : K)
    (Point : sPoint K) : Nat → Sampler K → Except Fault (Sampler K)
  | 0, st => .ok st
  | n + 1, st =>
    let NewPoint := (GenerateRandomPointAround lib Point MinDist st.gen).1
    let gen1 := (GenerateRandomPointAround lib Point MinDist st.gen).2
    if Fits Circle g NewPoint && !st.Grid.IsInNeighbourhood NewPoint MinDist CellSize then
      match st.Grid.Insert NewPoint with
      | .error e => .error e
      | .ok Grid1 =>
        expand lib g Circle MinDist CellSize Point n
          { ProcessList := st.ProcessList ++ [NewPoint]
            SamplePoints := st.SamplePoints ++ [NewPoint]
            Grid := Grid1
            gen := gen1 }
    else expand lib g Circle MinDist CellSize Point n { st with gen := gen1 }

/-- The condition `!ProcessList.empty() && SamplePoints.size() < NumPoints` of
the `while` loop. -/
def running (NumPoints : Nat) (st : Sampler K) : Bool :=
  !st.ProcessList.isEmpty && decide (st.SamplePoints.length < NumPoints)

/-- The `while` loop of `GeneratePoissonPoints`; one unit of fuel per
iteration. -/
def mainLoop (lib : Lib K) (g : Globals K) (Circle : Bool) (MinDist CellSize : K)
    (NewPointsCount : Int) (NumPoints : Nat) : Nat → Sampler K →
    Except Fault (Sampler K)
  | 0, st => if running NumPoints st then .error Fault.fuel else .ok st
  | fuel + 1, st =>
    if running NumPoints st then
      match PopRandom st.ProcessList st.gen with
      | .error e => .error e
      | .ok (Point, rest, gen1) =>
        match expand lib g Circle MinDist CellSize Point NewPointsCount.toNat
            { st with ProcessList := rest, gen := gen1 } with
        | .error e => .error e
        | .ok st1 =>
          mainLoop lib g Circle MinDist CellSize NewPointsCount NumPoints fuel st1
    else .ok st

/-- The assignment `rscat = 0.` under `if (allow_disks_on_boundary)`. -/
def setBoundary (allow_disks_on_boundary : Bool) (g : Globals K) : Globals K :=
  if allow_disks_on_boundary then { g with rscat := 0 } else g

/-- The function `GeneratePoissonPoints` for a finite `MinDist`.  Each of its
two unbounded loops may run for `fuel` iterations.  The two arguments of a call
`sPoint(RandomFloat(), RandomFloat())` are drawn from left to right. -/
def GeneratePoissonPoints (lib : Lib K) (fuel : Nat) (MinDist : K)
    (NewPointsCount : Int) (NumPoints : Nat) (Circle : Bool)
    (allow_disks_on_boundary : Bool) (g : Globals K) :
    Except Fault (List (sPoint K) × Globals K) :=
  let CellSize := MinDist / lib.sqrt 2
  let GridW := Int.ceil (1 / CellSize)
  let GridH := Int.ceil (1 / CellSize)
  let Grid := sGrid.new GridW GridH CellSize
  let g1 := setBoundary allow_disks_on_boundary g
  let gen2 := (RandomFloat (RandomFloat g1.gen).2).2
  match seedLoop Circle g1 fuel gen2 with
  | .error e => .error e
  | .ok (FirstPoint, gen3) =>
    match Grid.Insert FirstPoint with
    | .error e => .error e
    | .ok Grid1 =>
      match mainLoop lib g1 Circle MinDist CellSize NewPointsCount NumPoints fuel
          { ProcessList := [FirstPoint]
            SamplePoints := [FirstPoint]
            Grid := Grid1
            gen := gen3 } with
      | .error e => .error e
      | .ok st => .ok (st.SamplePoints, { g1 with gen := st.gen })

/-- The function `GeneratePoissonPoints` for `MinDist = +∞`, the value of
`1. / sqrt(0.0f)`.  In IEEE arithmetic `CellSize = +∞ / sqrt(2.0f) = +∞`, `1.0f / CellSize = 0`, so
`GridW = GridH = 0`, and `P.x / CellSize = 0` for every finite `P.x`, so
`ImageToGrid` yields the cell `(0, 0)`; the field `m_CellSize` is not read on
this path.  The statements after the insertion of the first point are not
reached, because a grid without rows has no element to assign. -/
def GeneratePoissonPointsAtInfinity (fuel : Nat) (Circle : Bool)
    (allow_disks_on_boundary : Bool) (g : Globals K) :
    Except Fault (List (sPoint K) × Globals K) :=
  let GridW : Int := 0
  let GridH : Int := 0
  let Grid : sGrid K := sGrid.new GridW GridH 0
  let g1 := setBoundary allow_disks_on_boundary g
  let gen2 := (RandomFloat (RandomFloat g1.gen).2).2
  match seedLoop Circle g1 fuel gen2 with
  | .error e => .error e
  | .ok (FirstPoint, _) =>
    match Grid.store ⟨0, 0⟩ FirstPoint with
    | .error e => .error e
    | .ok _ => .error Fault.nonfinite

/-- The value `1. / sqrt(float(v))` assigned to `MinDistance`, in IEEE
arithmetic: the root of a negative number is a NaN, and `1. / 0` is `+∞`. -/
def minDistance (lib : Lib K) (v : K) : Flt K :=
  if v < 0 then Flt.nan
  else if v = 0 then Flt.infinity
  else Flt.finite (1 / lib.sqrt v)

/-- The call `GeneratePoissonPoints(MinDistance, k, NumPoints, circle,
allow_disks_on_boundary)` made by a driver.  With a NaN for `MinDistance` the
width of the grid is the conversion of a NaN to `int`. -/
def callSampler (lib : Lib K) (fuel : Nat) (circle : Bool)
    (allow_disks_on_boundary : Bool) (g : Globals K) :
    Except Fault (List (sPoint K) × Globals K) :=
  match g.MinDistance with
  | Flt.finite d =>
    GeneratePoissonPoints lib fuel d k (toSizeT g.NumPoints) circle
      allow_disks_on_boundary g
  | Flt.infinity => GeneratePoissonPointsAtInfinity fuel circle allow_disks_on_boundary g
  | Flt.nan => .error Fault.nonfinite

/-- The assignments of `gen_circ_distribution` that precede its call of the
sampler.  `NumPoints` is an `int`, and `2 * NumPoints` is a product of `int`s. -/
def circSetup (lib : Lib K) (seed : Nat) (rdisk_ rscat_ ff_ distance_border_ : K)
    (g : Globals K) : Globals K :=
  let g1 := { g with
    gen := lib.seed seed
    rdisk := rdisk_
    rscat := rscat_
    ff := ff_
    distance_border := distance_border_ }
  let g2 := { g1 with
    NumPoints := castInt (g1.rdisk * g1.rdisk * g1.ff / (g1.rscat * g1.rscat)) }
  { g2 with MinDistance := minDistance lib ((wrapInt (2 * g2.NumPoints) : Int) : K) }

/-- The driver `gen_circ_distribution`. -/
def gen_circ_distribution (lib : Lib K) (fuel : Nat) (seed : Nat)
    (rdisk_ rscat_ ff_ distance_border_ : K) (allow_disks_on_boundary : Bool)
    (g : Globals K) : Except Fault (List (sPoint K) × Globals K) :=
  let circle := true
  match callSampler lib fuel circle allow_disks_on_boundary
      (circSetup lib seed rdisk_ rscat_ ff_ distance_border_ g) with
  | .error e => .error e
  | .ok (Points, g4) =>
    let netrdisk := g4.rdisk - g4.distance_border
    .ok (Points.map fun p =>
      { p with
        x := p.x * 2 * netrdisk - netrdisk
        y := p.y * 2 * netrdisk - netrdisk }, g4)

/-- The assignments of `gen_rect_distribution` that precede its call of the
sampler; `pi` is `M_PI`.  `NumPoints` is an `int`, and `1.55 * NumPoints` is a
product of `double`s. -/
def rectSetup (lib : Lib K) (seed : Nat) (w_ h_ rscat_ ff_ distance_border_ : K)
    (g : Globals K) : Globals K :=
  let g1 := { g with
    gen := lib.seed seed
    rscat := rscat_
    ff := ff_
    distance_border := distance_border_
    w := w_
    h := h_ }
  let g2 := { g1 with
    NumPoints := castInt (g1.w * g1.h * g1.ff / (g1.rscat * g1.rscat * lib.pi)) }
  { g2 with MinDistance := minDistance lib (155 / 100 * (g2.NumPoints : K)) }

/-- The driver `gen_rect_distribution`. -/
def gen_rect_distribution (lib : Lib K) (fuel : Nat) (seed : Nat)
    (w_ h_ rscat_ ff_ distance_border_ : K) (allow_disks_on_boundary : Bool)
    (g : Globals K) : Except Fault (List (sPoint K) × Globals K) :=
  let circle := false
  match callSampler lib fuel circle allow_disks_on_boundary
      (rectSetup lib seed w_ h_ rscat_ ff_ distance_border_ g) with
  | .error e => .error e
  | .ok (Points, g4) =>
    let netw := g4.w - g4.distance_border
    let neth := g4.h - g4.distance_border
    .ok (Points.map fun p =>
      { p with
        x := p.x * netw - netw / 2
        y := p.y * neth - neth / 2 }, g4)

/-- What the loops of the sampler maintain about the grid: every accepted
point has non-negative coordinates and is stored in the cell `ImageToGrid`
names, and the accepted points are pairwise `MinDist` apart. -/
structure GridInv (MinDist c : K) (st : Sampler K) : Prop where
  cell : st.Grid.m_CellSize = c
  square : st.Grid.m_W = st.Grid.m_H
  stored : ∀ P ∈ st.SamplePoints, 0 ≤ P.x ∧ 0 ≤ P.y ∧ P.m_Valid = true ∧
    0 ≤ (ImageToGrid P c).x ∧ (ImageToGrid P c).x < st.Grid.m_H ∧
    0 ≤ (ImageToGrid P c).y ∧ (ImageToGrid P c).y < st.Grid.m_W ∧
    st.Grid.m_Grid (ImageToGrid P c).x (ImageToGrid P c).y = P
  apart : st.SamplePoints.Pairwise fun P Q => MinDist * MinDist ≤ GetDistanceSq P Q

/-- The exhaustive search that `IsInNeighbourhood` is compared with: some point
stored anywhere in the grid, in one of its `m_H` rows of `m_W` elements, is at
distance below `MinDist` from `Point`. -/
def sGrid.exhaustiveSearch (grid : sGrid K) (Point : sPoint K) (MinDist : K) : Bool :=
  (intRange 0 grid.m_H).any fun i =>
    (intRange 0 grid.m_W).any fun j =>
      (grid.m_Grid i j).m_Valid && GetDistanceLt (grid.m_Grid i j) Point MinDist

/-- One iteration of the `while` loop of `GeneratePoissonPoints`: the point that
`PopRandom` removes, and the state at the next head of the loop. -/
def iteration (lib : Lib K) (g : Globals K) (Circle : Bool) (MinDist CellSize : K)
    (NewPointsCount : Int) (st : Sampler K) : Except Fault (sPoint K × Sampler K) :=
  match PopRandom st.ProcessList st.gen with
  | .error e => .error e
  | .ok (Point, rest, gen1) =>
    match expand lib g Circle MinDist CellSize Point NewPointsCount.toNat
        { st with ProcessList := rest, gen := gen1 } with
    | .error e => .error e
    | .ok st1 => .ok (Point, st1)

/-- The state at the head of the `while` loop after `n` iterations, with the
points popped by these iterations in order; `none` when the loop ends or fails
before. -/
def loopHead (lib : Lib K) (g : Globals K) (Circle : Bool) (MinDist CellSize : K)
    (NewPointsCount : Int) (NumPoints : Nat) : Nat → Sampler K →
    Option (List (sPoint K) × Sampler K)
  | 0, st => some ([], st)
  | n + 1, st =>
    if running NumPoints st then
      match iteration lib g Circle MinDist CellSize NewPointsCount st with
      | .error _ => none
      | .ok (Point, st1) =>
        match loopHead lib g Circle MinDist CellSize NewPointsCount NumPoints n st1 with
        | none => none
        | some (popped, st2) => some (Point :: popped, st2)
    else none

end Defs

section Fixtures

/-- A generator for evaluated runs: the draws read through `dis(0.0, 1.0)` are
listed, later draws are 0, and every drawn index is 0. -/
def Gen.ofList (reals : List ℚ) : Gen ℚ :=
  ⟨fun n => reals.getD n 0, fun _ => 0, 0⟩

/-- A library for evaluated runs over `ℚ`.  `sqrt` is exact at 4 and 16 and
rounds the roots of 2, of 856 and of 58.9 up to 577/408, 1463/50 and 307/40;
`M_PI` is 355/113; `cos` and `sin` are exact at the multiples of a quarter
turn, the only angles that the draws of the listed generators produce. -/
def testLib (reals : List ℚ) : Lib ℚ where
  sqrt v :=
    if v = 2 then 577 / 408 else if v = 4 then 2 else if v = 16 then 4
    else if v = 856 then 1463 / 50 else if v = 589 / 10 then 307 / 40 else 0
  cos a :=
    if a = 2 * (355 / 113) * (1 / 4) then 0
    else if a = 2 * (355 / 113) * (1 / 2) then -1
    else if a = 2 * (355 / 113) * (3 / 4) then 0 else 1
  sin a :=
    if a = 2 * (355 / 113) * (1 / 4) then 1
    else if a = 2 * (355 / 113) * (1 / 2) then 0
    else if a = 2 * (355 / 113) * (3 / 4) then -1 else 0
  pi := 355 / 113
  seed _ := Gen.ofList reals

/-- Draws for evaluated runs: two draws that the sampler discards, the first
point (1/2, 1/2), the draw of `PopRandom`, a candidate at angle 0 and a
candidate at a quarter turn, both at radius `MinDist`. -/
def testDraws : List ℚ := [0, 0, 1 / 2, 1 / 2, 0, 0, 0, 0, 1 / 4]

/-- Process-wide variables for evaluated runs of the sampler: the unit square
with a margin of 1/10, the unit disk with the same margin. -/
def testGlobals : Globals ℚ where
  rscat := 1 / 10
  ff := 35 / 100
  rdisk := 1
  distance_border := 0
  w := 1
  h := 1
  NumPoints := 0
  MinDistance := Flt.nan
  gen := Gen.ofList testDraws

/-- Draws for an evaluated run that leaves the grid: two draws that the sampler
discards, the first point (1/2, 1/2), the draw of `PopRandom`, and a candidate at
angle 0 whose radius `(11863283/33554432) * (4913933/11863283 + 1)` is 1/2, the
point (1, 1/2). -/
def edgeDraws : List ℚ := [0, 0, 1 / 2, 1 / 2, 0, 4913933 / 11863283, 0]

/-- The library of the evaluated runs with the single-precision value of
`sqrt(2.0f)`, which is 11863283 / 2^23. -/
def floatLib (reals : List ℚ) : Lib ℚ :=
  { testLib reals with
    sqrt := fun v => if v = 2 then 11863283 / 8388608 else (testLib reals).sqrt v }

/-- A grid for evaluated searches: 6 by 6 cells of size 102/577, the cell size
for `MinDist = 1/4` and 577/408 for `sqrt(2.0f)`, holding the point (1/2, 1/2)
in its cell (2, 2). -/
def testGrid : sGrid ℚ :=
  ⟨6, 6, 102 / 577, fun i j => if i = 2 ∧ j = 2 then sPoint.new (1 / 2) (1 / 2)
    else sPoint.empty⟩

/-- Draws for an evaluated run of the rectangle driver that leaves the grid: two
draws that the sampler discards, the first point (19/20, 1/2), the draw of
`PopRandom`, and a candidate at angle 0 whose radius
`(577/12648) * (277/2885 + 1)` is 1/20, the point (1, 1/2). -/
def rimDraws : List ℚ := [0, 0, 19 / 20, 1 / 2, 0, 277 / 2885, 0]

/-- The library of the evaluated runs with 12648/577 for the root of 480.5, the
radicand `1.55 * 310`: with 577/408 for the root of 2 the product of the two
roots is 31, the root of 961. -/
def rimLib (reals : List ℚ) : Lib ℚ :=
  { testLib reals with
    sqrt := fun v => if v = 961 / 2 then 12648 / 577 else (testLib reals).sqrt v }

end Fixtures

section Lists

variable {K : Type}

/-- The loop variable of `for (int i = lo; i < hi; i++)` takes the values from
`lo` to `hi - 1`. -/
theorem mem_intRange {lo hi i : Int} : i ∈ intRange lo hi ↔ lo ≤ i ∧ i < hi := by
  unfold intRange
  simp only [List.mem_map, List.mem_range]
  constructor
  · rintro ⟨n, hn, rfl⟩
    constructor <;> omega
  · rintro ⟨h1, h2⟩
    exact ⟨(i - lo).toNat, by omega, by omega⟩

/-- A run whose list of points is known returns that list. -/
theorem ok_of_toOption {α β : Type} {r : Except Fault (α × β)} {a : α}
    (h : r.toOption.map Prod.fst = some a) : ∃ b, r = .ok (a, b) := by
  cases r with
  | error e => simp [Except.toOption] at h
  | ok v =>
    obtain ⟨v1, v2⟩ := v
    simp only [Except.toOption, Option.map_some', Option.some.injEq] at h
    exact ⟨v2, by rw [h]⟩

/-- A run whose fault is known ends with that fault. -/
theorem error_of_fault {α : Type} {r : Except Fault α} {e : Fault}
    (h : (match r with
      | .error e1 => some e1
      | .ok _ => none) = some e) : r = .error e := by
  cases r with
  | error e1 =>
    simp only [Option.some.injEq] at h
    rw [h]
  | ok v => simp at h

/-- A successful `PopRandom` removes one element of the list. -/
theorem popRandom_ok {Points : List (sPoint K)} {gen : Gen K} {P : sPoint K}
    {rest : List (sPoint K)} {gen1 : Gen K}
    (h : PopRandom Points gen = .ok (P, rest, gen1)) :
    rest.length + 1 = Points.length := by
  unfold PopRandom at h
  simp only at h
  split at h
  · rename_i Q hQ
    simp only [Except.ok.injEq, Prod.mk.injEq] at h
    obtain ⟨-, rfl, -⟩ := h
    have hlt := (List.getElem?_eq_some.mp hQ).1
    rw [List.length_eraseIdx, if_pos hlt]
    omega
  · simp at h

/-- The function `PopRandom` fails on the empty list only, with an access out of range. -/
theorem popRandom_error {Points : List (sPoint K)} {gen : Gen K} {e : Fault}
    (h : PopRandom Points gen = .error e) : e = Fault.range ∧ Points = [] := by
  unfold PopRandom at h
  simp only at h
  split at h
  · simp at h
  · rename_i hnone
    simp only [Except.error.injEq] at h
    refine ⟨h.symm, ?_⟩
    by_contra hne
    have hpos : 0 < Points.length := List.length_pos.mpr hne
    have hlt : gen.index gen.pos % Points.length < Points.length := Nat.mod_lt _ hpos
    rw [List.getElem?_eq_none_iff] at hnone
    omega

/-- The element at an index together with the list without that index is a
permutation of the list. -/
theorem perm_cons_eraseIdx {α : Type} :
    ∀ (l : List α) (i : Nat) (a : α), l[i]? = some a → (a :: l.eraseIdx i).Perm l := by
  intro l
  induction l with
  | nil => intro i a h; simp at h
  | cons b t ih =>
    intro i a h
    cases i with
    | zero =>
      simp only [List.getElem?_cons_zero, Option.some.injEq] at h
      subst h
      simp
    | succ i =>
      simp only [List.getElem?_cons_succ] at h
      simp only [List.eraseIdx_cons_succ]
      exact (List.Perm.swap b a _).trans ((ih i a h).cons b)

/-- Unfolding of a successful `PopRandom`. -/
theorem popRandom_spec {Points : List (sPoint K)} {gen : Gen K} {P : sPoint K}
    {rest : List (sPoint K)} {gen1 : Gen K}
    (h : PopRandom Points gen = .ok (P, rest, gen1)) :
    Points[gen.index gen.pos % Points.length]? = some P ∧
      rest = Points.eraseIdx (gen.index gen.pos % Points.length) ∧
      gen1 = { gen with pos := gen.pos + 1 } := by
  unfold PopRandom at h
  simp only at h
  split at h
  · rename_i Q hQ
    simp only [Except.ok.injEq, Prod.mk.injEq] at h
    obtain ⟨rfl, rfl, rfl⟩ := h
    exact ⟨hQ, rfl, rfl⟩
  · simp at h

end Lists

section Ordered

variable {K : Type} [LinearOrderedField K]

/-- The comparison `sqrt(a) < b` holds when `b` is positive and `a < b * b`. -/
theorem sqrtLt_eq_true {a b : K} : sqrtLt a b = true ↔ 0 < b ∧ a < b * b := by
  simp [sqrtLt]

/-- Two coordinates of one cell differ by less than the cell size. -/
theorem sq_lt_of_same_cell {c x x1 : K} {n : Int}
    (h1 : (n : K) * c ≤ x) (h2 : x < ((n : K) + 1) * c)
    (h3 : (n : K) * c ≤ x1) (h4 : x1 < ((n : K) + 1) * c) :
    (x - x1) * (x - x1) < c * c := by
  nlinarith

/-- Coordinates whose cells are four or more columns apart differ by at least
four cell sizes. -/
theorem sq_ge_of_far_cell {c x x1 : K} {n n1 : Int} (hc : 0 < c)
    (h1 : (n : K) * c ≤ x) (h2 : x < ((n : K) + 1) * c)
    (h3 : (n1 : K) * c ≤ x1) (h4 : x1 < ((n1 : K) + 1) * c)
    (hfar : n1 < n - 5 ∨ n + 5 ≤ n1) :
    16 * (c * c) ≤ (x - x1) * (x - x1) := by
  rcases hfar with h | h
  · have h5 : ((n1 : K) + 1) ≤ (n : K) - 5 := by
      have : n1 + 1 ≤ n - 5 := by omega
      exact_mod_cast this
    have : 4 * c ≤ x - x1 := by nlinarith
    nlinarith
  · have h5 : (n : K) + 5 ≤ (n1 : K) := by exact_mod_cast h
    have : 4 * c ≤ x1 - x := by nlinarith
    nlinarith

/-- With a non-negative margin and positive extents, a point that passes the
containment test lies in the unit square. -/
theorem fits_bounds {Circle : Bool} {g : Globals K} {P : sPoint K}
    (hm : 0 ≤ g.rscat + g.distance_border)
    (hc : Circle = true → 0 < g.rdisk)
    (hr : Circle = false → 0 < g.w ∧ 0 < g.h)
    (hP : Fits Circle g P = true) :
    0 ≤ P.x ∧ P.x ≤ 1 ∧ 0 ≤ P.y ∧ P.y ≤ 1 := by
  cases Circle with
  | true =>
    have hd := hc rfl
    simp only [Fits, if_true, sPoint.IsInCircle, sqrtLt_eq_true] at hP
    obtain ⟨hb, hlt⟩ := hP
    have hq : 0 ≤ (g.rscat + g.distance_border) / g.rdisk := div_nonneg hm hd.le
    have hb1 : 1 - (g.rscat + g.distance_border) / g.rdisk ≤ 1 := by linarith
    have hbb : (1 - (g.rscat + g.distance_border) / g.rdisk) *
        (1 - (g.rscat + g.distance_border) / g.rdisk) ≤ 1 := by nlinarith
    have hx : (2 * (P.x - 1 / 2)) ^ 2 < 1 := by
      nlinarith [mul_self_nonneg (2 * (P.y - 1 / 2))]
    have hy : (2 * (P.y - 1 / 2)) ^ 2 < 1 := by
      nlinarith [mul_self_nonneg (2 * (P.x - 1 / 2))]
    have hx1 := abs_lt.mp ((sq_lt_one_iff_abs_lt_one _).mp hx)
    have hy1 := abs_lt.mp ((sq_lt_one_iff_abs_lt_one _).mp hy)
    refine ⟨?_, ?_, ?_, ?_⟩ <;> linarith [hx1.1, hx1.2, hy1.1, hy1.2]
  | false =>
    obtain ⟨hw, hh⟩ := hr rfl
    simp only [Fits, Bool.false_eq_true, if_false, sPoint.IsInRectangle, Bool.and_eq_true,
      decide_eq_true_eq] at hP
    obtain ⟨⟨⟨h1, h2⟩, h3⟩, h4⟩ := hP
    have hqw : 0 ≤ (g.rscat + g.distance_border) / g.w := div_nonneg hm hw.le
    have hqh : 0 ≤ (g.rscat + g.distance_border) / g.h := div_nonneg hm hh.le
    refine ⟨?_, ?_, ?_, ?_⟩ <;> linarith

/-- The first point found by the seed loop satisfies the containment test and
was built by `sPoint(X, Y)`. -/
theorem seedLoop_ok {Circle : Bool} {g : Globals K} :
    ∀ (fuel : Nat) (gen : Gen K) (P : sPoint K) (gen1 : Gen K),
      seedLoop Circle g fuel gen = .ok (P, gen1) →
      Fits Circle g P = true ∧ P.m_Valid = true := by
  intro fuel
  induction fuel with
  | zero => intro gen P gen1 h; simp [seedLoop] at h
  | succ n ih =>
    intro gen P gen1 h
    simp only [seedLoop] at h
    split at h
    · exact ih _ _ _ h
    · rename_i hf
      simp only [Except.ok.injEq, Prod.mk.injEq] at h
      obtain ⟨rfl, -⟩ := h
      simp only [Bool.not_eq_true, Bool.not_eq_eq_eq_not, Bool.not_false] at hf
      exact ⟨by simpa using hf, rfl⟩

/-- The seed loop reads the process-wide variables through the containment test
only. -/
theorem seedLoop_congr {Circle : Bool} {ga gb : Globals K}
    (hF : ∀ P, Fits Circle ga P = Fits Circle gb P) :
    ∀ (fuel : Nat) (gen : Gen K), seedLoop Circle ga fuel gen = seedLoop Circle gb fuel gen := by
  intro fuel
  induction fuel with
  | zero => intro gen; rfl
  | succ n ih =>
    intro gen
    simp only [seedLoop, hF, ih]

/-- The sampler at `MinDist = +∞` depends on the process-wide variables through
the containment test and the generator only. -/
theorem atInfinity_congr (fuel : Nat) (Circle allow : Bool) {ga gb : Globals K}
    (hF : ∀ P, Fits Circle (setBoundary allow ga) P = Fits Circle (setBoundary allow gb) P)
    (hgen : (setBoundary allow ga).gen = (setBoundary allow gb).gen) :
    (GeneratePoissonPointsAtInfinity fuel Circle allow ga).map Prod.fst =
      (GeneratePoissonPointsAtInfinity fuel Circle allow gb).map Prod.fst := by
  unfold GeneratePoissonPointsAtInfinity
  simp only [hgen, seedLoop_congr hF]

/-- The sampler at `MinDist = +∞` returns no list. -/
theorem atInfinity_not_ok (fuel : Nat) (Circle allow : Bool) (g : Globals K)
    (r : List (sPoint K) × Globals K) :
    GeneratePoissonPointsAtInfinity fuel Circle allow g ≠ .ok r := by
  unfold GeneratePoissonPointsAtInfinity
  simp only
  split
  · simp
  · split <;> simp

/-- The rescaling of `gen_circ_distribution` maps a point accepted by
`IsInCircle` into the disk of radius `rdisk - rscat - border`. -/
theorem circ_rescale_inside {rd rs b x y : K} (hd : 0 < rd) (hs : 0 ≤ rs) (hb : 0 ≤ b)
    (hpos : 0 < 1 - (rs + b) / rd)
    (hin : 2 * (x - 1 / 2) * (2 * (x - 1 / 2)) + 2 * (y - 1 / 2) * (2 * (y - 1 / 2)) <
      (1 - (rs + b) / rd) * (1 - (rs + b) / rd)) :
    0 < rd - rs - b ∧
      (x * 2 * (rd - b) - (rd - b)) * (x * 2 * (rd - b) - (rd - b)) +
        (y * 2 * (rd - b) - (rd - b)) * (y * 2 * (rd - b) - (rd - b)) <
        (rd - rs - b) * (rd - rs - b) := by
  have hR : rd * (1 - (rs + b) / rd) = rd - rs - b := by
    field_simp
    ring
  have hRpos : 0 < rd - rs - b := by
    rw [← hR]
    exact mul_pos hd hpos
  refine ⟨hRpos, ?_⟩
  have hnet0 : 0 ≤ rd - b := by linarith
  have hnet1 : rd - b ≤ rd := by linarith
  have hnetsq : (rd - b) * (rd - b) ≤ rd * rd := by nlinarith
  have hS : 0 ≤ 2 * (x - 1 / 2) * (2 * (x - 1 / 2)) + 2 * (y - 1 / 2) * (2 * (y - 1 / 2)) := by
    nlinarith [mul_self_nonneg (2 * (x - 1 / 2)), mul_self_nonneg (2 * (y - 1 / 2))]
  have e1 : (x * 2 * (rd - b) - (rd - b)) * (x * 2 * (rd - b) - (rd - b)) +
      (y * 2 * (rd - b) - (rd - b)) * (y * 2 * (rd - b) - (rd - b)) =
      (rd - b) * (rd - b) *
        (2 * (x - 1 / 2) * (2 * (x - 1 / 2)) + 2 * (y - 1 / 2) * (2 * (y - 1 / 2))) := by
    ring
  have e2 : (rd - rs - b) * (rd - rs - b) =
      rd * rd * ((1 - (rs + b) / rd) * (1 - (rs + b) / rd)) := by
    rw [← hR]
    ring
  rw [e1, e2]
  calc (rd - b) * (rd - b) *
        (2 * (x - 1 / 2) * (2 * (x - 1 / 2)) + 2 * (y - 1 / 2) * (2 * (y - 1 / 2)))
      ≤ rd * rd *
        (2 * (x - 1 / 2) * (2 * (x - 1 / 2)) + 2 * (y - 1 / 2) * (2 * (y - 1 / 2))) :=
        mul_le_mul_of_nonneg_right hnetsq hS
    _ < rd * rd * ((1 - (rs + b) / rd) * (1 - (rs + b) / rd)) :=
        mul_lt_mul_of_pos_left hin (mul_pos hd hd)

/-- The rescaling of `gen_rect_distribution` maps a coordinate accepted by
`IsInRectangle` into the interval shrunk by the margin. -/
theorem rect_rescale_inside {w rs b x : K} (hw : 0 < w) (hs : 0 ≤ rs) (hb : 0 ≤ b)
    (h1 : (rs + b) / w ≤ x) (h2 : x ≤ 1 - (rs + b) / w) :
    |x * (w - b) - (w - b) / 2| + rs + b ≤ w / 2 := by
  have ht : (rs + b) / w * w = rs + b := by field_simp
  have ht0 : 0 ≤ (rs + b) / w := div_nonneg (by linarith) hw.le
  have hhalf : (rs + b) / w ≤ 1 / 2 := by linarith
  have hm : rs + b ≤ w / 2 := by nlinarith
  have hnet : 0 ≤ w - b := by linarith
  have hbt : 0 ≤ b * (1 / 2 - (rs + b) / w) := mul_nonneg hb (by linarith)
  have e : (w - b) * (1 / 2 - (rs + b) / w) =
      w / 2 - (rs + b) - b * (1 / 2 - (rs + b) / w) := by
    have : (w - b) * (1 / 2 - (rs + b) / w) =
        w / 2 - (rs + b) / w * w - b * (1 / 2 - (rs + b) / w) := by ring
    rw [this, ht]
  have hu : (w - b) * (x - 1 / 2) ≤ (w - b) * (1 / 2 - (rs + b) / w) :=
    mul_le_mul_of_nonneg_left (by linarith) hnet
  have hl : (w - b) * (-(1 / 2 - (rs + b) / w)) ≤ (w - b) * (x - 1 / 2) :=
    mul_le_mul_of_nonneg_left (by linarith) hnet
  have hp : x * (w - b) - (w - b) / 2 = (w - b) * (x - 1 / 2) := by ring
  have habs : |x * (w - b) - (w - b) / 2| ≤ w / 2 - (rs + b) := by
    rw [hp, abs_le]
    constructor <;> linarith
  linarith

/-- A driver computes a finite `MinDistance` from a positive radicand. -/
theorem minDistance_finite (lib : Lib K) {v : K} (hv : 0 < v) :
    minDistance lib v = Flt.finite (1 / lib.sqrt v) := by
  unfold minDistance
  rw [if_neg (not_lt.mpr hv.le), if_neg hv.ne']

/-- The seed loop fails by using up its fuel only. -/
theorem seedLoop_error {Circle : Bool} {g : Globals K} :
    ∀ (fuel : Nat) (gen : Gen K) (e : Fault),
      seedLoop Circle g fuel gen = .error e → e = Fault.fuel := by
  intro fuel
  induction fuel with
  | zero =>
    intro gen e h
    simp only [seedLoop, Except.error.injEq] at h
    exact h.symm
  | succ n ih =>
    intro gen e h
    simp only [seedLoop] at h
    split at h
    · exact ih _ _ h
    · simp at h

/-- The squared distance between a point and the candidate generated around it
is the squared radius, when the cosine and the sine of the angle lie on the unit
circle. -/
theorem around_distSq (lib : Lib K) (P : sPoint K) (MinDist : K) (gen : Gen K)
    (hcs : lib.cos (2 * lib.pi * gen.real (gen.pos + 1)) *
        lib.cos (2 * lib.pi * gen.real (gen.pos + 1)) +
      lib.sin (2 * lib.pi * gen.real (gen.pos + 1)) *
        lib.sin (2 * lib.pi * gen.real (gen.pos + 1)) = 1) :
    GetDistanceSq P (GenerateRandomPointAround lib P MinDist gen).1 =
      MinDist * (gen.real gen.pos + 1) * (MinDist * (gen.real gen.pos + 1)) := by
  simp only [GetDistanceSq, GenerateRandomPointAround, RandomFloat, sPoint.new]
  have e : ∀ r c s : K, (P.x - (P.x + r * c)) * (P.x - (P.x + r * c)) +
      (P.y - (P.y + r * s)) * (P.y - (P.y + r * s)) = r * r * (c * c + s * s) := by
    intro r c s
    ring
  rw [e, hcs, mul_one]

/-- The assignment `rscat = 0.` changes no other process-wide variable that the
containment tests read. -/
theorem setBoundary_fields (allow : Bool) (g : Globals K) :
    (setBoundary allow g).distance_border = g.distance_border ∧
      (setBoundary allow g).rdisk = g.rdisk ∧ (setBoundary allow g).w = g.w ∧
      (setBoundary allow g).h = g.h := by
  cases allow <;> simp [setBoundary]

end Ordered

section Loops

variable {K : Type} [LinearOrderedField K] [FloorRing K]

/-- The integer part of a non-negative value is its floor. -/
theorem truncInt_of_nonneg {v : K} (hv : 0 ≤ v) : truncInt v = Int.floor v := by
  simp [truncInt, hv]

/-- The conversion to `int` of a non-negative value below `2^31` is its floor. -/
theorem castInt_of_nonneg {v : K} (hv : 0 ≤ v) (hb : Int.floor v < 2 ^ 31) :
    castInt v = Int.floor v := by
  have h0 : 0 ≤ Int.floor v := Int.floor_nonneg.mpr hv
  unfold castInt
  rw [truncInt_of_nonneg hv, if_pos ⟨by omega, hb⟩]

/-- An `int` operation whose exact result is in the range of `int` yields it. -/
theorem wrapInt_of_range {n : Int} (hlo : -2 ^ 31 ≤ n) (hhi : n < 2 ^ 31) : wrapInt n = n := by
  unfold wrapInt
  omega

/-- A non-negative coordinate lies in the half-open cell its index names. -/
theorem cell_bounds {c x : K} (hc : 0 < c) (hx : 0 ≤ x) :
    (truncInt (x / c) : K) * c ≤ x ∧ x < ((truncInt (x / c) : K) + 1) * c := by
  have hq : 0 ≤ x / c := div_nonneg hx hc.le
  rw [truncInt_of_nonneg hq]
  have h1 := Int.floor_le (x / c)
  have h2 := Int.lt_floor_add_one (x / c)
  rw [le_div_iff₀ hc] at h1
  rw [div_lt_iff₀ hc] at h2
  exact ⟨h1, h2⟩

/-- A successful `Insert` wrote inside the allocated range, into the cell that
`ImageToGrid` names. -/
theorem insert_ok {grid grid1 : sGrid K} {P : sPoint K} (h : grid.Insert P = .ok grid1) :
    (0 ≤ (ImageToGrid P grid.m_CellSize).x ∧ (ImageToGrid P grid.m_CellSize).x < grid.m_H ∧
      0 ≤ (ImageToGrid P grid.m_CellSize).y ∧ (ImageToGrid P grid.m_CellSize).y < grid.m_W) ∧
    grid1 = ⟨grid.m_W, grid.m_H, grid.m_CellSize, fun i j =>
      if i = (ImageToGrid P grid.m_CellSize).x ∧ j = (ImageToGrid P grid.m_CellSize).y then P
      else grid.m_Grid i j⟩ := by
  unfold sGrid.Insert sGrid.store at h
  split at h
  · rename_i hb
    simp only [Except.ok.injEq] at h
    exact ⟨hb, h.symm⟩
  · simp at h

/-- The method `Insert` fails with an access out of range only. -/
theorem insert_error {grid : sGrid K} {P : sPoint K} {e : Fault}
    (h : grid.Insert P = .error e) : e = Fault.range := by
  unfold sGrid.Insert sGrid.store at h
  split at h
  · simp at h
  · simp only [Except.error.injEq] at h
    exact h.symm

/-- Induction over the `for` loop: a property kept by a rejected and by an
accepted candidate holds after the loop. -/
theorem expand_inv (Inv : Sampler K → Prop) (lib : Lib K) (g : Globals K) (Circle : Bool)
    (MinDist CellSize : K) (Point : sPoint K)
    (hrej : ∀ (st : Sampler K) (gen1 : Gen K), Inv st → Inv { st with gen := gen1 })
    (hacc : ∀ (st : Sampler K) (NewPoint : sPoint K) (Grid1 : sGrid K) (gen1 : Gen K),
      Inv st → NewPoint.m_Valid = true → Fits Circle g NewPoint = true →
      st.Grid.IsInNeighbourhood NewPoint MinDist CellSize = false →
      st.Grid.Insert NewPoint = .ok Grid1 →
      Inv ⟨st.ProcessList ++ [NewPoint], st.SamplePoints ++ [NewPoint], Grid1, gen1⟩) :
    ∀ (n : Nat) (st st1 : Sampler K), Inv st →
      expand lib g Circle MinDist CellSize Point n st = .ok st1 → Inv st1 := by
  intro n
  induction n with
  | zero =>
    intro st st1 hI h
    simp only [expand, Except.ok.injEq] at h
    exact h ▸ hI
  | succ n ih =>
    intro st st1 hI h
    simp only [expand] at h
    split at h
    · rename_i hcond
      simp only [Bool.and_eq_true, Bool.not_eq_true, Bool.not_eq_eq_eq_not, Bool.not_true] at hcond
      split at h
      · simp at h
      · rename_i Grid1 hins
        exact ih _ _ (hacc st _ Grid1 _ hI rfl hcond.1 hcond.2 hins) h
    · exact ih _ _ (hrej st _ hI) h

/-- Induction over the `while` loop. -/
theorem mainLoop_inv (Inv : Sampler K → Prop) (lib : Lib K) (g : Globals K) (Circle : Bool)
    (MinDist CellSize : K) (NewPointsCount : Int) (NumPoints : Nat)
    (hpop : ∀ (st : Sampler K) (P : sPoint K) (rest : List (sPoint K)) (gen1 : Gen K),
      Inv st → PopRandom st.ProcessList st.gen = .ok (P, rest, gen1) →
      Inv { st with ProcessList := rest, gen := gen1 })
    (hrej : ∀ (st : Sampler K) (gen1 : Gen K), Inv st → Inv { st with gen := gen1 })
    (hacc : ∀ (st : Sampler K) (NewPoint : sPoint K) (Grid1 : sGrid K) (gen1 : Gen K),
      Inv st → NewPoint.m_Valid = true → Fits Circle g NewPoint = true →
      st.Grid.IsInNeighbourhood NewPoint MinDist CellSize = false →
      st.Grid.Insert NewPoint = .ok Grid1 →
      Inv ⟨st.ProcessList ++ [NewPoint], st.SamplePoints ++ [NewPoint], Grid1, gen1⟩) :
    ∀ (fuel : Nat) (st st1 : Sampler K), Inv st →
      mainLoop lib g Circle MinDist CellSize NewPointsCount NumPoints fuel st = .ok st1 →
      Inv st1 := by
  intro fuel
  induction fuel with
  | zero =>
    intro st st1 hI h
    simp only [mainLoop] at h
    split at h
    · simp at h
    · simp only [Except.ok.injEq] at h
      exact h ▸ hI
  | succ n ih =>
    intro st st1 hI h
    simp only [mainLoop] at h
    split at h
    · split at h
      · simp at h
      · rename_i Point rest gen1 hp
        split at h
        · simp at h
        · rename_i st2 he
          exact ih _ _ (expand_inv Inv lib g Circle MinDist CellSize Point hrej hacc _ _ _
            (hpop st Point rest gen1 hI hp) he) h
    · simp only [Except.ok.injEq] at h
      exact h ▸ hI

/-- A stored point whose cell is outside the window scanned around `N` is at
least four cell sizes away from `N`. -/
theorem far_of_not_window {c : K} (hc : 0 < c) {A N : sPoint K}
    (hAx : 0 ≤ A.x) (hAy : 0 ≤ A.y) (hNx : 0 ≤ N.x) (hNy : 0 ≤ N.y)
    (hwin : ¬ (((ImageToGrid N c).x - 5 ≤ (ImageToGrid A c).x ∧
        (ImageToGrid A c).x < (ImageToGrid N c).x + 5) ∧
      ((ImageToGrid N c).y - 5 ≤ (ImageToGrid A c).y ∧
        (ImageToGrid A c).y < (ImageToGrid N c).y + 5))) :
    16 * (c * c) ≤ GetDistanceSq A N := by
  obtain ⟨ax1, ax2⟩ := cell_bounds hc hAx
  obtain ⟨ay1, ay2⟩ := cell_bounds hc hAy
  obtain ⟨nx1, nx2⟩ := cell_bounds hc hNx
  obtain ⟨ny1, ny2⟩ := cell_bounds hc hNy
  unfold GetDistanceSq
  simp only [ImageToGrid] at hwin
  by_cases hx : (truncInt (N.x / c) - 5 ≤ truncInt (A.x / c) ∧
      truncInt (A.x / c) < truncInt (N.x / c) + 5)
  · have hy : ¬ (truncInt (N.y / c) - 5 ≤ truncInt (A.y / c) ∧
        truncInt (A.y / c) < truncInt (N.y / c) + 5) := fun hy => hwin ⟨hx, hy⟩
    have h1 := sq_ge_of_far_cell hc ny1 ny2 ay1 ay2 (by omega)
    have h2 : (N.y - A.y) * (N.y - A.y) = (A.y - N.y) * (A.y - N.y) := by ring
    linarith only [h1, h2, mul_self_nonneg (A.x - N.x)]
  · have h1 := sq_ge_of_far_cell hc nx1 nx2 ax1 ax2 (by omega)
    have h2 : (N.x - A.x) * (N.x - A.x) = (A.x - N.x) * (A.x - N.x) := by ring
    linarith only [h1, h2, mul_self_nonneg (A.y - N.y)]

/-- A candidate that the neighbourhood test lets pass is `MinDist` away from
every accepted point. -/
theorem apart_of_not_inNeighbourhood {MinDist s : K} (hM : 0 < MinDist) (hs0 : 0 < s)
    (hs4 : s ≤ 4) {st : Sampler K} {N : sPoint K}
    (hI : GridInv MinDist (MinDist / s) st) (hNx : 0 ≤ N.x) (hNy : 0 ≤ N.y)
    (hnb : st.Grid.IsInNeighbourhood N MinDist (MinDist / s) = false) :
    ∀ A ∈ st.SamplePoints, MinDist * MinDist ≤ GetDistanceSq A N := by
  intro A hA
  have hc : 0 < MinDist / s := div_pos hM hs0
  obtain ⟨hAx, hAy, hAv, hx0, hxH, hy0, hyW, hAg⟩ := hI.stored A hA
  have hbound : MinDist * MinDist ≤ 16 * (MinDist / s * (MinDist / s)) := by
    have h1 : MinDist * MinDist = (MinDist / s * (MinDist / s)) * (s * s) := by
      field_simp
    have h2 : s * s ≤ 16 := by nlinarith
    have h3 : 0 ≤ MinDist / s * (MinDist / s) := mul_self_nonneg _
    rw [h1]
    nlinarith
  by_cases hwin :
      ((ImageToGrid N (MinDist / s)).x - 5 ≤ (ImageToGrid A (MinDist / s)).x ∧
        (ImageToGrid A (MinDist / s)).x < (ImageToGrid N (MinDist / s)).x + 5) ∧
      ((ImageToGrid N (MinDist / s)).y - 5 ≤ (ImageToGrid A (MinDist / s)).y ∧
        (ImageToGrid A (MinDist / s)).y < (ImageToGrid N (MinDist / s)).y + 5)
  · by_contra hlt
    rw [not_le] at hlt
    have hsq := hI.square
    have htrue : st.Grid.IsInNeighbourhood N MinDist (MinDist / s) = true := by
      unfold sGrid.IsInNeighbourhood
      simp only [List.any_eq_true, mem_intRange]
      refine ⟨_, hwin.1, _, hwin.2, ?_⟩
      rw [hAg]
      have hguard : (0 ≤ (ImageToGrid A (MinDist / s)).x ∧
          (ImageToGrid A (MinDist / s)).x < st.Grid.m_W ∧
          0 ≤ (ImageToGrid A (MinDist / s)).y ∧
          (ImageToGrid A (MinDist / s)).y < st.Grid.m_H) := by
        refine ⟨hx0, ?_, hy0, ?_⟩ <;> omega
      simp only [Bool.and_eq_true, decide_eq_true_eq]
      exact ⟨hguard, hAv, sqrtLt_eq_true.mpr ⟨hM, hlt⟩⟩
    rw [htrue] at hnb
    exact Bool.noConfusion hnb
  · have hfar := far_of_not_window hc hAx hAy hNx hNy hwin
    linarith only [hfar, hbound]

/-- Two points in one cell are closer than `MinDist`. -/
theorem lt_of_same_cell {MinDist s : K} (hM : 0 < MinDist) (hs0 : 0 < s)
    (hs2 : 2 ≤ s * s) {A N : sPoint K} (hAx : 0 ≤ A.x) (hAy : 0 ≤ A.y)
    (hNx : 0 ≤ N.x) (hNy : 0 ≤ N.y)
    (hx : (ImageToGrid A (MinDist / s)).x = (ImageToGrid N (MinDist / s)).x)
    (hy : (ImageToGrid A (MinDist / s)).y = (ImageToGrid N (MinDist / s)).y) :
    GetDistanceSq A N < MinDist * MinDist := by
  have hc : 0 < MinDist / s := div_pos hM hs0
  obtain ⟨ax1, ax2⟩ := cell_bounds hc hAx
  obtain ⟨ay1, ay2⟩ := cell_bounds hc hAy
  obtain ⟨nx1, nx2⟩ := cell_bounds hc hNx
  obtain ⟨ny1, ny2⟩ := cell_bounds hc hNy
  simp only [ImageToGrid] at hx hy
  rw [← hx] at nx1 nx2
  rw [← hy] at ny1 ny2
  have h1 := sq_lt_of_same_cell ax1 ax2 nx1 nx2
  have h2 := sq_lt_of_same_cell ay1 ay2 ny1 ny2
  have h3 : MinDist * MinDist = (MinDist / s * (MinDist / s)) * (s * s) := by
    field_simp
  have h4 : 0 ≤ MinDist / s * (MinDist / s) := mul_self_nonneg _
  unfold GetDistanceSq
  rw [h3]
  nlinarith

/-- Accepting a candidate keeps the grid invariant. -/
theorem gridInv_accept {MinDist s : K} (hM : 0 < MinDist) (hs0 : 0 < s)
    (hs2 : 2 ≤ s * s) (hs4 : s ≤ 4) {st : Sampler K} {N : sPoint K} {Grid1 : sGrid K}
    (gen1 : Gen K) (hI : GridInv MinDist (MinDist / s) st)
    (hNx : 0 ≤ N.x) (hNy : 0 ≤ N.y) (hNv : N.m_Valid = true)
    (hnb : st.Grid.IsInNeighbourhood N MinDist (MinDist / s) = false)
    (hins : st.Grid.Insert N = .ok Grid1) :
    GridInv MinDist (MinDist / s)
      ⟨st.ProcessList ++ [N], st.SamplePoints ++ [N], Grid1, gen1⟩ := by
  obtain ⟨hb, rfl⟩ := insert_ok hins
  rw [hI.cell] at hb
  have hap := apart_of_not_inNeighbourhood hM hs0 hs4 hI hNx hNy hnb
  have hne : ∀ A ∈ st.SamplePoints,
      ¬ ((ImageToGrid A (MinDist / s)).x = (ImageToGrid N (MinDist / s)).x ∧
        (ImageToGrid A (MinDist / s)).y = (ImageToGrid N (MinDist / s)).y) := by
    intro A hA hxy
    obtain ⟨hAx, hAy, -⟩ := hI.stored A hA
    exact absurd (lt_of_same_cell hM hs0 hs2 hAx hAy hNx hNy hxy.1 hxy.2)
      (not_lt.mpr (hap A hA))
  refine ⟨hI.cell, hI.square, ?_, ?_⟩
  · intro P hP
    simp only [List.mem_append, List.mem_singleton] at hP
    rcases hP with hP | rfl
    · obtain ⟨hPx, hPy, hPv, hx0, hxH, hy0, hyW, hPg⟩ := hI.stored P hP
      refine ⟨hPx, hPy, hPv, hx0, hxH, hy0, hyW, ?_⟩
      simp only [hI.cell]
      rw [if_neg (hne P hP)]
      exact hPg
    · refine ⟨hNx, hNy, hNv, hb.1, hb.2.1, hb.2.2.1, hb.2.2.2, ?_⟩
      simp only [hI.cell, and_self, if_true]
  · show (st.SamplePoints ++ [N]).Pairwise _
    rw [List.pairwise_append]
    refine ⟨hI.apart, List.pairwise_singleton _ _, ?_⟩
    intro A hA B hB
    rw [List.mem_singleton] at hB
    subst hB
    exact hap A hA

/-- The state in which the `while` loop is entered satisfies the grid
invariant. -/
theorem gridInv_seed (MinDist c : K) (W : Int) {P : sPoint K} {Grid1 : sGrid K}
    (gen : Gen K) (hPx : 0 ≤ P.x) (hPy : 0 ≤ P.y) (hPv : P.m_Valid = true)
    (hins : (sGrid.new W W c).Insert P = .ok Grid1) :
    GridInv MinDist c ⟨[P], [P], Grid1, gen⟩ := by
  obtain ⟨hb, rfl⟩ := insert_ok hins
  refine ⟨rfl, rfl, ?_, List.pairwise_singleton _ _⟩
  intro Q hQ
  rw [List.mem_singleton] at hQ
  subst hQ
  refine ⟨hPx, hPy, hPv, hb.1, hb.2.1, hb.2.2.1, hb.2.2.2, ?_⟩
  simp [sGrid.new]

/-- The grid invariant holds when `GeneratePoissonPoints` leaves its `while`
loop. -/
theorem mainLoop_gridInv (lib : Lib K) (g : Globals K) (Circle : Bool) (MinDist : K)
    (NewPointsCount : Int) (NumPoints : Nat)
    (hM : 0 < MinDist) (hs0 : 0 < lib.sqrt 2) (hs2 : 2 ≤ lib.sqrt 2 * lib.sqrt 2)
    (hs4 : lib.sqrt 2 ≤ 4) (hm : 0 ≤ g.rscat + g.distance_border)
    (hc : Circle = true → 0 < g.rdisk) (hr : Circle = false → 0 < g.w ∧ 0 < g.h)
    (fuel : Nat) (st st1 : Sampler K) (hI : GridInv MinDist (MinDist / lib.sqrt 2) st)
    (h : mainLoop lib g Circle MinDist (MinDist / lib.sqrt 2) NewPointsCount NumPoints
      fuel st = .ok st1) :
    GridInv MinDist (MinDist / lib.sqrt 2) st1 := by
  refine mainLoop_inv (GridInv MinDist (MinDist / lib.sqrt 2)) lib g Circle MinDist
    (MinDist / lib.sqrt 2) NewPointsCount NumPoints ?_ ?_ ?_ fuel st st1 hI h
  · intro st P rest gen1 hI _
    exact ⟨hI.cell, hI.square, hI.stored, hI.apart⟩
  · intro st gen1 hI
    exact ⟨hI.cell, hI.square, hI.stored, hI.apart⟩
  · intro st N Grid1 gen1 hI hNv hfit hnb hins
    obtain ⟨hNx, -, hNy, -⟩ := fits_bounds hm hc hr hfit
    exact gridInv_accept hM hs0 hs2 hs4 gen1 hI hNx hNy hNv hnb hins

/-- Unfolding of a run of `GeneratePoissonPoints` that returns. -/
theorem generate_ok {lib : Lib K} {fuel : Nat} {MinDist : K} {NewPointsCount : Int}
    {NumPoints : Nat} {Circle allow : Bool} {g : Globals K} {pts : List (sPoint K)}
    {g1 : Globals K}
    (h : GeneratePoissonPoints lib fuel MinDist NewPointsCount NumPoints Circle allow g =
      .ok (pts, g1)) :
    ∃ (FirstPoint : sPoint K) (gen3 : Gen K) (Grid1 : sGrid K) (st : Sampler K),
      seedLoop Circle (setBoundary allow g) fuel
        (RandomFloat (RandomFloat (setBoundary allow g).gen).2).2 = .ok (FirstPoint, gen3) ∧
      (sGrid.new (Int.ceil (1 / (MinDist / lib.sqrt 2))) (Int.ceil (1 / (MinDist / lib.sqrt 2)))
        (MinDist / lib.sqrt 2)).Insert FirstPoint = .ok Grid1 ∧
      mainLoop lib (setBoundary allow g) Circle MinDist (MinDist / lib.sqrt 2) NewPointsCount
        NumPoints fuel ⟨[FirstPoint], [FirstPoint], Grid1, gen3⟩ = .ok st ∧
      pts = st.SamplePoints ∧ g1 = { setBoundary allow g with gen := st.gen } := by
  unfold GeneratePoissonPoints at h
  simp only at h
  split at h
  · simp at h
  · rename_i FirstPoint gen3 hseed
    split at h
    · simp at h
    · rename_i Grid1 hins
      split at h
      · simp at h
      · rename_i st hloop
        simp only [Except.ok.injEq, Prod.mk.injEq] at h
        exact ⟨FirstPoint, gen3, Grid1, st, hseed, hins, hloop, h.1.symm, h.2.symm⟩

/-- The accepted points all pass the containment test when the `while` loop is
left. -/
theorem mainLoop_fits (lib : Lib K) (g : Globals K) (Circle : Bool) (MinDist CellSize : K)
    (NewPointsCount : Int) (NumPoints : Nat) (fuel : Nat) (st st1 : Sampler K)
    (hI : ∀ P ∈ st.SamplePoints, Fits Circle g P = true)
    (h : mainLoop lib g Circle MinDist CellSize NewPointsCount NumPoints fuel st = .ok st1) :
    ∀ P ∈ st1.SamplePoints, Fits Circle g P = true := by
  refine mainLoop_inv (fun st => ∀ P ∈ st.SamplePoints, Fits Circle g P = true) lib g Circle
    MinDist CellSize NewPointsCount NumPoints ?_ ?_ ?_ fuel st st1 hI h
  · intro st P rest gen1 hI _
    exact hI
  · intro st gen1 hI
    exact hI
  · intro st N Grid1 gen1 hI _ hfit _ _ P hP
    simp only [List.mem_append, List.mem_singleton] at hP
    rcases hP with hP | rfl
    · exact hI P hP
    · exact hfit

/-- A run of `GeneratePoissonPoints` that returns: every point passes the
containment test, and the process-wide variables change in `rscat` and `gen`
only. -/
theorem generate_fits {lib : Lib K} {fuel : Nat} {MinDist : K} {NewPointsCount : Int}
    {NumPoints : Nat} {Circle allow : Bool} {g : Globals K} {pts : List (sPoint K)}
    {g1 : Globals K}
    (h : GeneratePoissonPoints lib fuel MinDist NewPointsCount NumPoints Circle allow g =
      .ok (pts, g1)) :
    (∀ P ∈ pts, Fits Circle (setBoundary allow g) P = true) ∧
      g1 = { setBoundary allow g with gen := g1.gen } := by
  obtain ⟨F, gen3, Grid1, st, hseed, -, hloop, rfl, rfl⟩ := generate_ok h
  refine ⟨?_, rfl⟩
  have h0 : ∀ P ∈ [F], Fits Circle (setBoundary allow g) P = true := by
    intro P hP
    rw [List.mem_singleton] at hP
    subst hP
    exact (seedLoop_ok _ _ _ _ hseed).1
  exact mainLoop_fits lib _ Circle MinDist _ NewPointsCount NumPoints fuel _ st h0 hloop

/-- A call of the sampler by a driver that returns ran with a finite
`MinDistance`. -/
theorem callSampler_ok {lib : Lib K} {fuel : Nat} {circle allow : Bool} {g : Globals K}
    {pts : List (sPoint K)} {g4 : Globals K}
    (h : callSampler lib fuel circle allow g = .ok (pts, g4)) :
    ∃ d, g.MinDistance = Flt.finite d ∧
      GeneratePoissonPoints lib fuel d k (toSizeT g.NumPoints) circle allow g = .ok (pts, g4) := by
  unfold callSampler at h
  split at h
  · rename_i d hd
    exact ⟨d, hd, h⟩
  · exact absurd h (atInfinity_not_ok _ _ _ _ _)
  · simp at h

/-- Unfolding of a run of `gen_circ_distribution` that returns. -/
theorem gen_circ_ok {lib : Lib K} {fuel seed : Nat} {rdisk_ rscat_ ff_ distance_border_ : K}
    {allow : Bool} {g : Globals K} {out : List (sPoint K)} {g4 : Globals K}
    (h : gen_circ_distribution lib fuel seed rdisk_ rscat_ ff_ distance_border_ allow g =
      .ok (out, g4)) :
    ∃ pts, callSampler lib fuel true allow
        (circSetup lib seed rdisk_ rscat_ ff_ distance_border_ g) = .ok (pts, g4) ∧
      out = pts.map fun p =>
        { p with
          x := p.x * 2 * (g4.rdisk - g4.distance_border) - (g4.rdisk - g4.distance_border)
          y := p.y * 2 * (g4.rdisk - g4.distance_border) - (g4.rdisk - g4.distance_border) } := by
  unfold gen_circ_distribution at h
  simp only at h
  split at h
  · simp at h
  · rename_i pts g5 hcall
    simp only [Except.ok.injEq, Prod.mk.injEq] at h
    obtain ⟨h1, rfl⟩ := h
    exact ⟨pts, hcall, h1.symm⟩

/-- Unfolding of a run of `gen_rect_distribution` that returns. -/
theorem gen_rect_ok {lib : Lib K} {fuel seed : Nat} {w_ h_ rscat_ ff_ distance_border_ : K}
    {allow : Bool} {g : Globals K} {out : List (sPoint K)} {g4 : Globals K}
    (h : gen_rect_distribution lib fuel seed w_ h_ rscat_ ff_ distance_border_ allow g =
      .ok (out, g4)) :
    ∃ pts, callSampler lib fuel false allow
        (rectSetup lib seed w_ h_ rscat_ ff_ distance_border_ g) = .ok (pts, g4) ∧
      out = pts.map fun p =>
        { p with
          x := p.x * (g4.w - g4.distance_border) - (g4.w - g4.distance_border) / 2
          y := p.y * (g4.h - g4.distance_border) - (g4.h - g4.distance_border) / 2 } := by
  unfold gen_rect_distribution at h
  simp only at h
  split at h
  · simp at h
  · rename_i pts g5 hcall
    simp only [Except.ok.injEq, Prod.mk.injEq] at h
    obtain ⟨h1, rfl⟩ := h
    exact ⟨pts, hcall, h1.symm⟩

/-- The `for` loop adds at most one point per iteration, and adds the same
points to the active list and to the sample list. -/
theorem expand_lengths (lib : Lib K) (g : Globals K) (Circle : Bool) (MinDist CellSize : K)
    (Point : sPoint K) :
    ∀ (n : Nat) (st st1 : Sampler K),
      expand lib g Circle MinDist CellSize Point n st = .ok st1 →
      st1.SamplePoints.length ≤ st.SamplePoints.length + n ∧
      st1.SamplePoints.length + st.ProcessList.length =
        st.SamplePoints.length + st1.ProcessList.length := by
  intro n
  induction n with
  | zero =>
    intro st st1 h
    simp only [expand, Except.ok.injEq] at h
    subst h
    exact ⟨Nat.le_refl _, rfl⟩
  | succ n ih =>
    intro st st1 h
    simp only [expand] at h
    split at h
    · split at h
      · simp at h
      · obtain ⟨h1, h2⟩ := ih _ _ h
        simp only [List.length_append, List.length_singleton] at h1 h2
        constructor <;> omega
    · obtain ⟨h1, h2⟩ := ih _ _ h
      simp only at h1 h2
      constructor <;> omega

/-- The `while` loop keeps the sample list within a bound that the list meets
at its start and that exceeds the target count by the candidates of one
expansion. -/
theorem mainLoop_length (lib : Lib K) (g : Globals K) (Circle : Bool) (MinDist CellSize : K)
    (NewPointsCount : Int) (NumPoints B : Nat)
    (hB : NumPoints + NewPointsCount.toNat - 1 ≤ B) :
    ∀ (fuel : Nat) (st st1 : Sampler K), st.SamplePoints.length ≤ B →
      mainLoop lib g Circle MinDist CellSize NewPointsCount NumPoints fuel st = .ok st1 →
      st1.SamplePoints.length ≤ B := by
  intro fuel
  induction fuel with
  | zero =>
    intro st st1 hI h
    simp only [mainLoop] at h
    split at h
    · simp at h
    · simp only [Except.ok.injEq] at h
      exact h ▸ hI
  | succ n ih =>
    intro st st1 hI h
    simp only [mainLoop] at h
    split at h
    · rename_i hrun
      simp only [running, Bool.and_eq_true, decide_eq_true_eq] at hrun
      split at h
      · simp at h
      · rename_i Point rest gen1 hp
        split at h
        · simp at h
        · rename_i st2 he
          have h1 := (expand_lengths lib g Circle MinDist CellSize Point _ _ _ he).1
          simp only at h1
          exact ih _ _ (by omega) h
    · simp only [Except.ok.injEq] at h
      exact h ▸ hI

/-- The `for` loop fails with an access out of range only. -/
theorem expand_error (lib : Lib K) (g : Globals K) (Circle : Bool) (MinDist CellSize : K)
    (Point : sPoint K) :
    ∀ (n : Nat) (st : Sampler K) (e : Fault),
      expand lib g Circle MinDist CellSize Point n st = .error e → e = Fault.range := by
  intro n
  induction n with
  | zero => intro st e h; simp [expand] at h
  | succ n ih =>
    intro st e h
    simp only [expand] at h
    split at h
    · split at h
      · rename_i e1 hins
        simp only [Except.error.injEq] at h
        subst h
        unfold sGrid.Insert sGrid.store at hins
        split at hins
        · simp at hins
        · simp only [Except.error.injEq] at hins
          exact hins.symm
      · exact ih _ _ h
    · exact ih _ _ h

/-- Each iteration of the `while` loop raises the number of points that have
left the active list by one, and an iteration needs that number to be below
`NumPoints - 1`: the loop does not use up a fuel of `NumPoints - 1` less that
number, and fails with an access out of range only. -/
theorem mainLoop_error (lib : Lib K) (g : Globals K) (Circle : Bool) (MinDist CellSize : K)
    (NewPointsCount : Int) (NumPoints : Nat) :
    ∀ (fuel : Nat) (st : Sampler K) (e : Fault),
      st.ProcessList.length ≤ st.SamplePoints.length →
      NumPoints - 1 ≤ fuel + (st.SamplePoints.length - st.ProcessList.length) →
      mainLoop lib g Circle MinDist CellSize NewPointsCount NumPoints fuel st = .error e →
      e = Fault.range := by
  intro fuel
  induction fuel with
  | zero =>
    intro st e hle hf h
    simp only [mainLoop] at h
    split at h
    · rename_i hrun
      simp only [running, Bool.and_eq_true, decide_eq_true_eq, Bool.not_eq_true',
        List.isEmpty_eq_false] at hrun
      have hpos : 0 < st.ProcessList.length := List.length_pos.mpr hrun.1
      omega
    · simp at h
  | succ n ih =>
    intro st e hle hf h
    simp only [mainLoop] at h
    split at h
    · rename_i hrun
      split at h
      · rename_i e1 hp
        simp only [Except.error.injEq] at h
        subst h
        exact (popRandom_error hp).1
      · rename_i Point rest gen1 hp
        have hpop := popRandom_ok hp
        split at h
        · rename_i e1 he
          simp only [Except.error.injEq] at h
          subst h
          exact expand_error lib g Circle MinDist CellSize Point _ _ _ he
        · rename_i st2 he
          have h2 := (expand_lengths lib g Circle MinDist CellSize Point _ _ _ he).2
          simp only at h2
          exact ih st2 e (by omega) (by omega) h
    · simp at h

/-- The first element of the sample list stays in place. -/
theorem mainLoop_head (lib : Lib K) (g : Globals K) (Circle : Bool) (MinDist CellSize : K)
    (NewPointsCount : Int) (NumPoints : Nat) (F : sPoint K) (fuel : Nat) (st st1 : Sampler K)
    (hI : ∃ rest, st.SamplePoints = F :: rest)
    (h : mainLoop lib g Circle MinDist CellSize NewPointsCount NumPoints fuel st = .ok st1) :
    ∃ rest, st1.SamplePoints = F :: rest := by
  refine mainLoop_inv (fun st => ∃ rest, st.SamplePoints = F :: rest) lib g Circle
    MinDist CellSize NewPointsCount NumPoints ?_ ?_ ?_ fuel st st1 hI h
  · intro st P rest gen1 hI _
    exact hI
  · intro st gen1 hI
    exact hI
  · intro st N Grid1 gen1 hI _ _ _ _
    obtain ⟨rest, hrest⟩ := hI
    exact ⟨rest ++ [N], by simp [hrest]⟩

/-- When the `while` loop is left its condition is false. -/
theorem mainLoop_exit (lib : Lib K) (g : Globals K) (Circle : Bool) (MinDist CellSize : K)
    (NewPointsCount : Int) (NumPoints : Nat) :
    ∀ (fuel : Nat) (st st1 : Sampler K),
      mainLoop lib g Circle MinDist CellSize NewPointsCount NumPoints fuel st = .ok st1 →
      running NumPoints st1 = false := by
  intro fuel
  induction fuel with
  | zero =>
    intro st st1 h
    simp only [mainLoop] at h
    split at h
    · simp at h
    · rename_i hrun
      simp only [Except.ok.injEq] at h
      subst h
      simpa using hrun
  | succ n ih =>
    intro st st1 h
    simp only [mainLoop] at h
    split at h
    · split at h
      · simp at h
      · split at h
        · simp at h
        · exact ih _ _ h
    · rename_i hrun
      simp only [Except.ok.injEq] at h
      subst h
      simpa using hrun

/-- More fuel does not change the outcome of a `while` loop that did not use up
its fuel. -/
theorem mainLoop_mono (lib : Lib K) (g : Globals K) (Circle : Bool) (MinDist CellSize : K)
    (NewPointsCount : Int) (NumPoints : Nat) (m : Nat) :
    ∀ (fuel : Nat) (st : Sampler K),
      mainLoop lib g Circle MinDist CellSize NewPointsCount NumPoints fuel st ≠
        .error Fault.fuel →
      mainLoop lib g Circle MinDist CellSize NewPointsCount NumPoints (fuel + m) st =
        mainLoop lib g Circle MinDist CellSize NewPointsCount NumPoints fuel st := by
  intro fuel
  induction fuel with
  | zero =>
    intro st h
    simp only [mainLoop] at h
    split at h
    · exact absurd rfl h
    · rename_i hrun
      cases m with
      | zero => rfl
      | succ m =>
        simp only [Nat.zero_add, mainLoop, hrun, Bool.false_eq_true, if_false]
  | succ n ih =>
    intro st h
    rw [Nat.add_right_comm]
    simp only [mainLoop] at h ⊢
    split
    · rename_i hrun
      simp only [hrun, if_true] at h
      split
      · rfl
      · rename_i Point rest gen1 hp
        simp only [hp] at h
        split
        · rfl
        · rename_i st2 he
          simp only [he] at h
          exact ih st2 h
    · rfl

/-- Once the first point is found and the fuel covers `NumPoints - 1` iterations,
`GeneratePoissonPoints` returns a list that starts with the first point, unless
it accesses the grid out of range. -/
theorem generate_seeded (lib : Lib K) (fuel : Nat) (MinDist : K) (NewPointsCount : Int)
    (NumPoints : Nat) (Circle allow : Bool) (g : Globals K) (F : sPoint K) (gen3 : Gen K)
    (hseed : seedLoop Circle (setBoundary allow g) fuel
      (RandomFloat (RandomFloat (setBoundary allow g).gen).2).2 = .ok (F, gen3))
    (hfuel : NumPoints - 1 ≤ fuel) :
    GeneratePoissonPoints lib fuel MinDist NewPointsCount NumPoints Circle allow g =
        .error Fault.range ∨
      ∃ rest g1, GeneratePoissonPoints lib fuel MinDist NewPointsCount NumPoints Circle allow g =
        .ok (F :: rest, g1) := by
  unfold GeneratePoissonPoints
  simp only [hseed]
  split
  · rename_i e hins
    rw [insert_error hins]
    exact Or.inl rfl
  · rename_i Grid1 hins
    split
    · rename_i e hloop
      rw [mainLoop_error lib _ Circle MinDist _ NewPointsCount NumPoints fuel _ e
        (Nat.le_refl _) (by simpa using hfuel) hloop]
      exact Or.inl rfl
    · rename_i st hloop
      obtain ⟨rest, hrest⟩ := mainLoop_head lib _ Circle MinDist _ NewPointsCount NumPoints F
        fuel _ st ⟨[], rfl⟩ hloop
      exact Or.inr ⟨rest, _, by rw [hrest]⟩

/-- The `for` loop reads the process-wide variables through the containment test
only. -/
theorem expand_congr (lib : Lib K) {Circle : Bool} {ga gb : Globals K}
    (hF : ∀ P, Fits Circle ga P = Fits Circle gb P) (MinDist CellSize : K) (Point : sPoint K) :
    ∀ (n : Nat) (st : Sampler K),
      expand lib ga Circle MinDist CellSize Point n st =
        expand lib gb Circle MinDist CellSize Point n st := by
  intro n
  induction n with
  | zero => intro st; rfl
  | succ n ih =>
    intro st
    simp only [expand, hF, ih]

/-- The `while` loop reads the process-wide variables through the containment
test only. -/
theorem mainLoop_congr (lib : Lib K) {Circle : Bool} {ga gb : Globals K}
    (hF : ∀ P, Fits Circle ga P = Fits Circle gb P) (MinDist CellSize : K)
    (NewPointsCount : Int) (NumPoints : Nat) :
    ∀ (fuel : Nat) (st : Sampler K),
      mainLoop lib ga Circle MinDist CellSize NewPointsCount NumPoints fuel st =
        mainLoop lib gb Circle MinDist CellSize NewPointsCount NumPoints fuel st := by
  intro fuel
  induction fuel with
  | zero => intro st; rfl
  | succ n ih =>
    intro st
    simp only [mainLoop, expand_congr lib hF, ih]

/-- The list returned by `GeneratePoissonPoints` depends on the process-wide
variables through the containment test and the generator only. -/
theorem generate_congr (lib : Lib K) (fuel : Nat) (MinDist : K) (NewPointsCount : Int)
    (NumPoints : Nat) (Circle allow : Bool) {ga gb : Globals K}
    (hF : ∀ P, Fits Circle (setBoundary allow ga) P = Fits Circle (setBoundary allow gb) P)
    (hgen : (setBoundary allow ga).gen = (setBoundary allow gb).gen) :
    (GeneratePoissonPoints lib fuel MinDist NewPointsCount NumPoints Circle allow ga).map
        Prod.fst =
      (GeneratePoissonPoints lib fuel MinDist NewPointsCount NumPoints Circle allow gb).map
        Prod.fst := by
  unfold GeneratePoissonPoints
  simp only [hgen, seedLoop_congr hF, mainLoop_congr lib hF]
  split
  · rfl
  · split
    · rfl
    · split <;> rfl

/-- The list returned to a driver by its call of the sampler depends on the
process-wide variables through the containment test, the generator,
`MinDistance` and `NumPoints` only. -/
theorem callSampler_congr (lib : Lib K) (fuel : Nat) (circle allow : Bool) {ga gb : Globals K}
    (hF : ∀ P, Fits circle (setBoundary allow ga) P = Fits circle (setBoundary allow gb) P)
    (hgen : (setBoundary allow ga).gen = (setBoundary allow gb).gen)
    (hM : ga.MinDistance = gb.MinDistance) (hN : ga.NumPoints = gb.NumPoints) :
    (callSampler lib fuel circle allow ga).map Prod.fst =
      (callSampler lib fuel circle allow gb).map Prod.fst := by
  unfold callSampler
  rw [hM, hN]
  split
  · exact generate_congr lib fuel _ k _ circle allow hF hgen
  · exact atInfinity_congr fuel circle allow hF hgen
  · rfl

/-- The list returned by `gen_circ_distribution` is the list returned by the
sampler, rescaled with the arguments `rdisk_` and `distance_border_`. -/
theorem gen_circ_map (lib : Lib K) (fuel seed : Nat) (rdisk_ rscat_ ff_ distance_border_ : K)
    (allow : Bool) (g : Globals K) :
    (gen_circ_distribution lib fuel seed rdisk_ rscat_ ff_ distance_border_ allow g).map
        Prod.fst =
      ((callSampler lib fuel true allow
        (circSetup lib seed rdisk_ rscat_ ff_ distance_border_ g)).map Prod.fst).map
        fun pts => pts.map fun p =>
          { p with
            x := p.x * 2 * (rdisk_ - distance_border_) - (rdisk_ - distance_border_)
            y := p.y * 2 * (rdisk_ - distance_border_) - (rdisk_ - distance_border_) } := by
  unfold gen_circ_distribution
  simp only
  split
  · rename_i e he
    rw [he]
    rfl
  · rename_i pts g4 hcall
    rw [hcall]
    obtain ⟨d, -, hgen⟩ := callSampler_ok hcall
    obtain ⟨-, hg4⟩ := generate_fits hgen
    have hrd : g4.rdisk = rdisk_ := by rw [hg4]; cases allow <;> rfl
    have hbd : g4.distance_border = distance_border_ := by rw [hg4]; cases allow <;> rfl
    simp only [Except.map, hrd, hbd]

/-- The list returned by `gen_rect_distribution` is the list returned by the
sampler, rescaled with the arguments `w_`, `h_` and `distance_border_`. -/
theorem gen_rect_map (lib : Lib K) (fuel seed : Nat) (w_ h_ rscat_ ff_ distance_border_ : K)
    (allow : Bool) (g : Globals K) :
    (gen_rect_distribution lib fuel seed w_ h_ rscat_ ff_ distance_border_ allow g).map
        Prod.fst =
      ((callSampler lib fuel false allow
        (rectSetup lib seed w_ h_ rscat_ ff_ distance_border_ g)).map Prod.fst).map
        fun pts => pts.map fun p =>
          { p with
            x := p.x * (w_ - distance_border_) - (w_ - distance_border_) / 2
            y := p.y * (h_ - distance_border_) - (h_ - distance_border_) / 2 } := by
  unfold gen_rect_distribution
  simp only
  split
  · rename_i e he
    rw [he]
    rfl
  · rename_i pts g4 hcall
    rw [hcall]
    obtain ⟨d, -, hgen⟩ := callSampler_ok hcall
    obtain ⟨-, hg4⟩ := generate_fits hgen
    have hgw : g4.w = w_ := by rw [hg4]; cases allow <;> rfl
    have hgh : g4.h = h_ := by rw [hg4]; cases allow <;> rfl
    have hbd : g4.distance_border = distance_border_ := by rw [hg4]; cases allow <;> rfl
    simp only [Except.map, hgw, hgh, hbd]

/-- With `MinDistance = +∞`, the value computed from `NumPoints = 0`, a driver's
call of the sampler returns no list: the search for the first point uses up the
fuel, or the insertion of the first point accesses the grid, which has no rows,
out of range. -/
theorem degenerate_no_list (lib : Lib K) (fuel : Nat) (circle allow : Bool) (g : Globals K)
    (hinf : g.MinDistance = Flt.infinity) :
    callSampler lib fuel circle allow g = .error Fault.fuel ∨
      callSampler lib fuel circle allow g = .error Fault.range := by
  unfold callSampler
  simp only [hinf]
  unfold GeneratePoissonPointsAtInfinity
  simp only
  split
  · rename_i e he
    rw [seedLoop_error _ _ _ he]
    exact Or.inl rfl
  · split
    · rename_i e hs
      unfold sGrid.store sGrid.new at hs
      simp only [lt_self_iff_false, false_and, and_false, if_false, Except.error.injEq] at hs
      rw [← hs]
      exact Or.inr rfl
    · rename_i grid hs
      unfold sGrid.store sGrid.new at hs
      simp at hs

/-- With a computed `NumPoints` of 0 neither driver returns a list: the run does
not find a first point within the fuel or accesses the grid out of range. -/
theorem drivers_degenerate (lib : Lib K) (fuel seed : Nat) (allow : Bool) (g : Globals K) :
    (∀ (rdisk_ rscat_ ff_ distance_border_ : K),
      castInt (rdisk_ * rdisk_ * ff_ / (rscat_ * rscat_)) = 0 →
      gen_circ_distribution lib fuel seed rdisk_ rscat_ ff_ distance_border_ allow g =
          .error Fault.fuel ∨
        gen_circ_distribution lib fuel seed rdisk_ rscat_ ff_ distance_border_ allow g =
          .error Fault.range) ∧
    (∀ (w_ h_ rscat_ ff_ distance_border_ : K),
      castInt (w_ * h_ * ff_ / (rscat_ * rscat_ * lib.pi)) = 0 →
      gen_rect_distribution lib fuel seed w_ h_ rscat_ ff_ distance_border_ allow g =
          .error Fault.fuel ∨
        gen_rect_distribution lib fuel seed w_ h_ rscat_ ff_ distance_border_ allow g =
          .error Fault.range) := by
  constructor
  · intro rdisk_ rscat_ ff_ distance_border_ hN
    have hinf : (circSetup lib seed rdisk_ rscat_ ff_ distance_border_ g).MinDistance =
        Flt.infinity := by
      show minDistance lib ((wrapInt (2 * castInt (rdisk_ * rdisk_ * ff_ / (rscat_ * rscat_)))
        : Int) : K) = _
      rw [hN]
      simp [minDistance, wrapInt]
    unfold gen_circ_distribution
    rcases degenerate_no_list lib fuel true allow
      (circSetup lib seed rdisk_ rscat_ ff_ distance_border_ g) hinf with h | h
    · simp only [h]
      exact Or.inl trivial
    · simp only [h]
      exact Or.inr trivial
  · intro w_ h_ rscat_ ff_ distance_border_ hN
    have hinf : (rectSetup lib seed w_ h_ rscat_ ff_ distance_border_ g).MinDistance =
        Flt.infinity := by
      show minDistance lib (155 / 100 *
        ((castInt (w_ * h_ * ff_ / (rscat_ * rscat_ * lib.pi)) : Int) : K)) = _
      rw [hN]
      simp [minDistance]
    unfold gen_rect_distribution
    rcases degenerate_no_list lib fuel false allow
      (rectSetup lib seed w_ h_ rscat_ ff_ distance_border_ g) hinf with h | h
    · simp only [h]
      exact Or.inl trivial
    · simp only [h]
      exact Or.inr trivial

/-- A coordinate `q` closer than four cell sizes to a non-negative coordinate `x`
has its cell index in the window scanned around the cell of `x`. -/
theorem cell_in_window {c x q r : K} (hc : 0 < c) (hx : 0 ≤ x) (hr0 : 0 ≤ r)
    (hr : r ≤ 4 * c) (hlt : (q - x) * (q - x) < r * r) :
    truncInt (x / c) - 5 ≤ truncInt (q / c) ∧ truncInt (q / c) < truncInt (x / c) + 5 := by
  have h1 : q - x < r := by
    by_contra hcon
    rw [not_lt] at hcon
    nlinarith
  have h2 : x - q < r := by
    by_contra hcon
    rw [not_lt] at hcon
    nlinarith
  have ha : 0 ≤ x / c := div_nonneg hx hc.le
  have hb1 : q / c < x / c + 4 := by
    rw [div_lt_iff₀ hc, add_mul, div_mul_cancel₀ _ hc.ne']
    linarith
  have hb2 : x / c - 4 < q / c := by
    rw [lt_div_iff₀ hc, sub_mul, div_mul_cancel₀ _ hc.ne']
    linarith
  have hfa1 := Int.floor_le (x / c)
  have hfa2 := Int.lt_floor_add_one (x / c)
  have hfa0 : 0 ≤ Int.floor (x / c) := Int.floor_nonneg.mpr ha
  rw [truncInt_of_nonneg ha]
  by_cases hq : 0 ≤ q / c
  · rw [truncInt_of_nonneg hq]
    have hfb1 := Int.floor_le (q / c)
    have hfb2 := Int.lt_floor_add_one (q / c)
    constructor
    · have : ((Int.floor (x / c) : Int) : K) - 5 < ((Int.floor (q / c) : Int) : K) := by linarith
      have h3 : Int.floor (x / c) - 5 < Int.floor (q / c) := by exact_mod_cast this
      omega
    · have : ((Int.floor (q / c) : Int) : K) < ((Int.floor (x / c) : Int) : K) + 5 := by linarith
      exact_mod_cast this
  · have hcast : truncInt (q / c) = Int.ceil (q / c) := by simp [truncInt, hq]
    rw [hcast]
    have hq1 : q / c ≤ ((0 : Int) : K) := by
      rw [Int.cast_zero]
      exact (not_le.mp hq).le
    have hc0 : Int.ceil (q / c) ≤ 0 := Int.ceil_le.mpr hq1
    have hc1 := Int.le_ceil (q / c)
    constructor
    · have : ((Int.floor (x / c) : Int) : K) - 5 < ((Int.ceil (q / c) : Int) : K) := by linarith
      have h3 : Int.floor (x / c) - 5 < Int.ceil (q / c) := by exact_mod_cast this
      omega
    · omega

/-- Every valid element of the grid is an accepted point, when the `while` loop
is left. -/
theorem mainLoop_onlySamples (lib : Lib K) (g : Globals K) (Circle : Bool)
    (MinDist CellSize : K) (NewPointsCount : Int) (NumPoints : Nat) (fuel : Nat)
    (st st1 : Sampler K)
    (hI : ∀ i j : Int, (st.Grid.m_Grid i j).m_Valid = true →
      st.Grid.m_Grid i j ∈ st.SamplePoints)
    (h : mainLoop lib g Circle MinDist CellSize NewPointsCount NumPoints fuel st = .ok st1) :
    ∀ i j : Int, (st1.Grid.m_Grid i j).m_Valid = true →
      st1.Grid.m_Grid i j ∈ st1.SamplePoints := by
  refine mainLoop_inv (fun st => ∀ i j : Int, (st.Grid.m_Grid i j).m_Valid = true →
    st.Grid.m_Grid i j ∈ st.SamplePoints) lib g Circle MinDist CellSize NewPointsCount
    NumPoints ?_ ?_ ?_ fuel st st1 hI h
  · intro st P rest gen1 hI _
    exact hI
  · intro st gen1 hI
    exact hI
  · intro st N Grid1 gen1 hI _ _ _ hins i j hv
    obtain ⟨-, rfl⟩ := insert_ok hins
    simp only at hv ⊢
    split at hv
    · rename_i hij
      rw [if_pos hij]
      exact List.mem_append_right _ (List.mem_singleton.mpr rfl)
    · rename_i hij
      rw [if_neg hij]
      exact List.mem_append_left _ (hI i j hv)

/-- Accepted points that are pairwise `MinDist` apart lie in pairwise different
cells. -/
theorem cells_differ_of_gridInv {MinDist s : K} (hM : 0 < MinDist) (hs0 : 0 < s)
    (hs2 : 2 ≤ s * s) {st : Sampler K} (hI : GridInv MinDist (MinDist / s) st) :
    st.SamplePoints.Pairwise fun P Q =>
      ImageToGrid P (MinDist / s) ≠ ImageToGrid Q (MinDist / s) := by
  refine hI.apart.imp_of_mem ?_
  intro A B hA hB hAB heq
  obtain ⟨hAx, hAy, -⟩ := hI.stored A hA
  obtain ⟨hBx, hBy, -⟩ := hI.stored B hB
  have hlt := lt_of_same_cell hM hs0 hs2 hAx hAy hBx hBy (by rw [heq]) (by rw [heq])
  exact absurd hlt (not_lt.mpr hAB)

/-- The `for` loop appends the same points to the active list and to the sample
list. -/
theorem expand_appends (lib : Lib K) (g : Globals K) (Circle : Bool) (MinDist CellSize : K)
    (Point : sPoint K) (n : Nat) (st st1 : Sampler K)
    (h : expand lib g Circle MinDist CellSize Point n st = .ok st1) :
    ∃ new, st1.SamplePoints = st.SamplePoints ++ new ∧
      st1.ProcessList = st.ProcessList ++ new := by
  refine expand_inv (fun s => ∃ new, s.SamplePoints = st.SamplePoints ++ new ∧
    s.ProcessList = st.ProcessList ++ new) lib g Circle MinDist CellSize Point ?_ ?_ n st st1
    ⟨[], by simp, by simp⟩ h
  · intro s gen1 hs
    exact hs
  · rintro s N Grid1 gen1 ⟨new, h1, h2⟩ _ _ _ _
    exact ⟨new ++ [N], by simp [h1], by simp [h2]⟩

/-- The function `mainLoop` runs `iteration` while the loop condition holds. -/
theorem mainLoop_step (lib : Lib K) (g : Globals K) (Circle : Bool) (MinDist CellSize : K)
    (NewPointsCount : Int) (NumPoints : Nat) (fuel : Nat) (st : Sampler K) :
    mainLoop lib g Circle MinDist CellSize NewPointsCount NumPoints (fuel + 1) st =
      if running NumPoints st then
        match iteration lib g Circle MinDist CellSize NewPointsCount st with
        | .error e => .error e
        | .ok (_, st1) =>
          mainLoop lib g Circle MinDist CellSize NewPointsCount NumPoints fuel st1
      else .ok st := by
  simp only [mainLoop, iteration]
  split
  · cases hp : PopRandom st.ProcessList st.gen with
    | error e => rfl
    | ok v =>
      obtain ⟨P, rest, gen1⟩ := v
      simp only
      cases he : expand lib g Circle MinDist CellSize P NewPointsCount.toNat
          { st with ProcessList := rest, gen := gen1 } with
      | error e => rfl
      | ok st1 => rfl
  · rfl

/-- The state with which the `while` loop returns is one of its loop heads. -/
theorem mainLoop_is_head (lib : Lib K) (g : Globals K) (Circle : Bool) (MinDist CellSize : K)
    (NewPointsCount : Int) (NumPoints : Nat) :
    ∀ (fuel : Nat) (st stf : Sampler K),
      mainLoop lib g Circle MinDist CellSize NewPointsCount NumPoints fuel st = .ok stf →
      ∃ n popped, n ≤ fuel ∧
        loopHead lib g Circle MinDist CellSize NewPointsCount NumPoints n st =
          some (popped, stf) := by
  intro fuel
  induction fuel with
  | zero =>
    intro st stf h
    simp only [mainLoop] at h
    split at h
    · simp at h
    · simp only [Except.ok.injEq] at h
      subst h
      exact ⟨0, [], Nat.le_refl _, rfl⟩
  | succ m ih =>
    intro st stf h
    rw [mainLoop_step] at h
    split at h
    · rename_i hrun
      split at h
      · simp at h
      · rename_i P st1 hit
        obtain ⟨n, popped, hn, hh⟩ := ih st1 stf h
        refine ⟨n + 1, P :: popped, by omega, ?_⟩
        simp only [loopHead, hrun, if_true, hit, hh]
    · simp only [Except.ok.injEq] at h
      subst h
      exact ⟨0, [], Nat.zero_le _, rfl⟩

/-- One iteration pops the drawn element of the active list and appends the
accepted candidates to both lists. -/
theorem iteration_spec {lib : Lib K} {g : Globals K} {Circle : Bool} {MinDist CellSize : K}
    {NewPointsCount : Int} {st st1 : Sampler K} {P : sPoint K}
    (h : iteration lib g Circle MinDist CellSize NewPointsCount st = .ok (P, st1)) :
    ∃ new, st.ProcessList[st.gen.index st.gen.pos % st.ProcessList.length]? = some P ∧
      st1.SamplePoints = st.SamplePoints ++ new ∧
      st1.ProcessList =
        st.ProcessList.eraseIdx (st.gen.index st.gen.pos % st.ProcessList.length) ++ new := by
  unfold iteration at h
  split at h
  · simp at h
  · rename_i Q rest gen1 hp
    split at h
    · simp at h
    · rename_i st2 he
      simp only [Except.ok.injEq, Prod.mk.injEq] at h
      obtain ⟨rfl, rfl⟩ := h
      obtain ⟨hQ, rfl, -⟩ := popRandom_spec hp
      obtain ⟨new, h1, h2⟩ := expand_appends lib g Circle MinDist CellSize _ _ _ _ he
      exact ⟨new, hQ, h1, h2⟩

/-- What holds at every head of the `while` loop, relative to the head at which
the count of iterations starts. -/
theorem loopHead_inv (lib : Lib K) (g : Globals K) (Circle : Bool) (MinDist CellSize : K)
    (NewPointsCount : Int) (NumPoints : Nat) :
    ∀ (n : Nat) (st st1 : Sampler K) (popped : List (sPoint K)),
      loopHead lib g Circle MinDist CellSize NewPointsCount NumPoints n st =
        some (popped, st1) →
      (st.ProcessList.Sublist st.SamplePoints → st1.ProcessList.Sublist st1.SamplePoints) ∧
      popped.length = n ∧
      st1.SamplePoints.length + st.ProcessList.length =
        st.SamplePoints.length + st1.ProcessList.length + n ∧
      ∀ pre : List (sPoint K), (pre ++ st.ProcessList).Perm st.SamplePoints →
        (pre ++ popped ++ st1.ProcessList).Perm st1.SamplePoints := by
  intro n
  induction n with
  | zero =>
    intro st st1 popped h
    simp only [loopHead, Option.some.injEq, Prod.mk.injEq] at h
    obtain ⟨rfl, rfl⟩ := h
    exact ⟨fun hs => hs, rfl, rfl, fun pre hp => by simpa using hp⟩
  | succ n ih =>
    intro st st1 popped h
    simp only [loopHead] at h
    split at h
    · split at h
      · simp at h
      · rename_i P st2 hit
        split at h
        · simp at h
        · rename_i popped1 st3 hh
          simp only [Option.some.injEq, Prod.mk.injEq] at h
          obtain ⟨rfl, rfl⟩ := h
          obtain ⟨new, hP, hSP, hPL⟩ := iteration_spec hit
          obtain ⟨ih1, ih2, ih3, ih4⟩ := ih st2 st3 popped1 hh
          have hlt := (List.getElem?_eq_some.mp hP).1
          refine ⟨?_, ?_, ?_, ?_⟩
          · intro hs
            apply ih1
            rw [hSP, hPL]
            exact ((List.eraseIdx_sublist _ _).trans hs).append (List.Sublist.refl new)
          · simp [ih2]
          · rw [hSP, hPL, List.length_append, List.length_append, List.length_eraseIdx,
              if_pos hlt] at ih3
            omega
          · intro pre hp
            have hperm : (pre ++ [P] ++ st2.ProcessList).Perm st2.SamplePoints := by
              rw [hSP, hPL]
              have h1 : (P :: st.ProcessList.eraseIdx
                  (st.gen.index st.gen.pos % st.ProcessList.length)).Perm st.ProcessList :=
                perm_cons_eraseIdx _ _ _ hP
              have h2 : (pre ++ (P :: st.ProcessList.eraseIdx
                  (st.gen.index st.gen.pos % st.ProcessList.length))).Perm st.SamplePoints :=
                (List.Perm.append_left pre h1).trans hp
              have h3 := List.Perm.append_right new h2
              simpa using h3
            have := ih4 (pre ++ [P]) hperm
            simpa using this
    · simp at h

/-- A coordinate in `[0, 1)` has its cell index inside the grid of width
`ceil(1 / CellSize)`. -/
theorem cell_lt_width {c x : K} (hc : 0 < c) (hx : 0 ≤ x) (hx1 : x < 1) :
    0 ≤ truncInt (x / c) ∧ truncInt (x / c) < Int.ceil (1 / c) := by
  have hq : 0 ≤ x / c := div_nonneg hx hc.le
  rw [truncInt_of_nonneg hq]
  refine ⟨Int.floor_nonneg.mpr hq, ?_⟩
  have h1 : x / c < 1 / c := div_lt_div_of_pos_right hx1 hc
  have h2 := Int.floor_le (x / c)
  have h3 := Int.le_ceil (1 / c)
  have : ((Int.floor (x / c) : Int) : K) < ((Int.ceil (1 / c) : Int) : K) := by linarith
  exact_mod_cast this

/-- In circle mode, with a non-negative margin and a positive `rdisk`, a point
that passes the containment test is inserted inside the allocated grid. -/
theorem insert_in_bounds_circle (lib : Lib K) (g : Globals K) (MinDist : K) (P : sPoint K)
    (hM : 0 < MinDist) (hs0 : 0 < lib.sqrt 2) (hm : 0 ≤ g.rscat + g.distance_border)
    (hd : 0 < g.rdisk) (hP : P.IsInCircle g = true) :
    ∃ grid1, (sGrid.new (Int.ceil (1 / (MinDist / lib.sqrt 2)))
      (Int.ceil (1 / (MinDist / lib.sqrt 2))) (MinDist / lib.sqrt 2)).Insert P = .ok grid1 := by
  have hc : 0 < MinDist / lib.sqrt 2 := div_pos hM hs0
  simp only [sPoint.IsInCircle, sqrtLt_eq_true] at hP
  obtain ⟨hb, hlt⟩ := hP
  have hq : 0 ≤ (g.rscat + g.distance_border) / g.rdisk := div_nonneg hm hd.le
  have hbb : (1 - (g.rscat + g.distance_border) / g.rdisk) *
      (1 - (g.rscat + g.distance_border) / g.rdisk) ≤ 1 := by nlinarith
  have hx : (2 * (P.x - 1 / 2)) ^ 2 < 1 := by
    nlinarith [mul_self_nonneg (2 * (P.y - 1 / 2))]
  have hy : (2 * (P.y - 1 / 2)) ^ 2 < 1 := by
    nlinarith [mul_self_nonneg (2 * (P.x - 1 / 2))]
  have hx1 := abs_lt.mp ((sq_lt_one_iff_abs_lt_one _).mp hx)
  have hy1 := abs_lt.mp ((sq_lt_one_iff_abs_lt_one _).mp hy)
  obtain ⟨a1, a2⟩ := cell_lt_width hc (x := P.x) (by linarith [hx1.1]) (by linarith [hx1.2])
  obtain ⟨b1, b2⟩ := cell_lt_width hc (x := P.y) (by linarith [hy1.1]) (by linarith [hy1.2])
  unfold sGrid.Insert sGrid.store
  simp only [sGrid.new, ImageToGrid]
  rw [if_pos ⟨a1, a2, b1, b2⟩]
  exact ⟨_, rfl⟩

end Loops

section Reals

/-- Over the reals the comparison `sqrtLt a b` is the comparison
`Real.sqrt a < b`. -/
theorem sqrtLt_real (a b : ℝ) : sqrtLt a b = true ↔ Real.sqrt a < b := by
  rw [sqrtLt_eq_true]
  constructor
  · rintro ⟨hb, h⟩
    rw [Real.sqrt_lt' hb, sq]
    exact h
  · intro h
    have hb : 0 < b := lt_of_le_of_lt (Real.sqrt_nonneg a) h
    have h1 := (Real.sqrt_lt' hb).mp h
    rw [sq] at h1
    exact ⟨hb, h1⟩

/-- The minimum-distance invariant in the ideal semantics: over the reals, with
the exact root of 2 for `sqrt(2.0f)`, any two entries of the returned list are at
Euclidean distance at least `MinDist`. -/
theorem min_distance_real (lib : Lib ℝ) (hlib : lib.sqrt 2 = Real.sqrt 2) (fuel : Nat)
    (MinDist : ℝ) (NewPointsCount : Int) (NumPoints : Nat) (Circle allow : Bool)
    (g : Globals ℝ) (pts : List (sPoint ℝ)) (g1 : Globals ℝ) (hM : 0 < MinDist)
    (hm : 0 ≤ (setBoundary allow g).rscat + (setBoundary allow g).distance_border)
    (hc : Circle = true → 0 < (setBoundary allow g).rdisk)
    (hr : Circle = false → 0 < (setBoundary allow g).w ∧ 0 < (setBoundary allow g).h)
    (h : GeneratePoissonPoints lib fuel MinDist NewPointsCount NumPoints Circle allow g =
      .ok (pts, g1)) :
    pts.Pairwise fun P Q => MinDist ≤ Real.sqrt (GetDistanceSq P Q) := by
  have h2 : Real.sqrt 2 * Real.sqrt 2 = 2 := Real.mul_self_sqrt (by norm_num)
  have hs0 : 0 < lib.sqrt 2 := by rw [hlib]; exact Real.sqrt_pos.mpr (by norm_num)
  have hs2 : 2 ≤ lib.sqrt 2 * lib.sqrt 2 := by rw [hlib, h2]
  have hs4 : lib.sqrt 2 ≤ 4 := by
    rw [hlib]
    nlinarith [Real.sqrt_nonneg 2]
  obtain ⟨P, gen3, Grid1, st, hseed, hins, hloop, rfl, -⟩ := generate_ok h
  obtain ⟨hfit, hPv⟩ := seedLoop_ok _ _ _ _ hseed
  obtain ⟨hPx, -, hPy, -⟩ := fits_bounds hm hc hr hfit
  have h0 := gridInv_seed MinDist (MinDist / lib.sqrt 2) _ gen3 hPx hPy hPv hins
  have hap := (mainLoop_gridInv lib _ Circle MinDist NewPointsCount NumPoints hM hs0 hs2 hs4
    hm hc hr fuel _ st h0 hloop).apart
  refine hap.imp ?_
  intro A B hAB
  apply Real.le_sqrt_of_sq_le
  rw [sq]
  exact hAB

/-- Over the reals, with the cosine and sine functions, the candidate generated
around `P` is at Euclidean distance `MinDist * (R1 + 1)` from `P`. -/
theorem around_dist_real (lib : Lib ℝ) (hcos : lib.cos = Real.cos) (hsin : lib.sin = Real.sin)
    (P : sPoint ℝ) (MinDist : ℝ) (gen : Gen ℝ) (hM : 0 < MinDist)
    (hR : 0 ≤ gen.real gen.pos) :
    Real.sqrt (GetDistanceSq P (GenerateRandomPointAround lib P MinDist gen).1) =
      MinDist * (gen.real gen.pos + 1) := by
  have hcs : lib.cos (2 * lib.pi * gen.real (gen.pos + 1)) *
        lib.cos (2 * lib.pi * gen.real (gen.pos + 1)) +
      lib.sin (2 * lib.pi * gen.real (gen.pos + 1)) *
        lib.sin (2 * lib.pi * gen.real (gen.pos + 1)) = 1 := by
    rw [hcos, hsin, ← sq, ← sq]
    exact Real.cos_sq_add_sin_sq _
  rw [around_distSq lib P MinDist gen hcs]
  exact Real.sqrt_mul_self (mul_nonneg hM.le (by linarith))

end Reals

section Claims

variable {K : Type} [LinearOrderedField K] [FloorRing K]

/-- Minimum distance with a root that is not rounded down: when
`GeneratePoissonPoints` returns, for a positive `MinDist`, a non-negative margin
(`rscat + distance_border` as the containment test reads it, `rscat` being 0
when `allow_disks_on_boundary` is set) and positive extents, any two entries at
different positions of the returned list are at Euclidean distance at least
`MinDist`, stated on the squares, provided that the value supplied for
`sqrt(2.0f)` is positive, at most 4 and of square at least 2, as the exact root
is.  The single-precision value has a square below 2. -/
theorem min_distance_invariant (lib : Lib K) (fuel : Nat) (MinDist : K)
    (NewPointsCount : Int) (NumPoints : Nat) (Circle allow : Bool) (g : Globals K)
    (pts : List (sPoint K)) (g1 : Globals K)
    (hM : 0 < MinDist) (hs0 : 0 < lib.sqrt 2) (hs2 : 2 ≤ lib.sqrt 2 * lib.sqrt 2)
    (hs4 : lib.sqrt 2 ≤ 4)
    (hm : 0 ≤ (setBoundary allow g).rscat + g.distance_border)
    (hc : Circle = true → 0 < g.rdisk) (hr : Circle = false → 0 < g.w ∧ 0 < g.h)
    (h : GeneratePoissonPoints lib fuel MinDist NewPointsCount NumPoints Circle allow g =
      .ok (pts, g1)) :
    pts.Pairwise fun P Q => MinDist * MinDist ≤ GetDistanceSq P Q := by
  obtain ⟨P, gen3, Grid1, st, hseed, hins, hloop, rfl, -⟩ := generate_ok h
  have hb : (setBoundary allow g).distance_border = g.distance_border ∧
      (setBoundary allow g).rdisk = g.rdisk ∧ (setBoundary allow g).w = g.w ∧
      (setBoundary allow g).h = g.h := by
    cases allow <;> simp [setBoundary]
  have hm1 : 0 ≤ (setBoundary allow g).rscat + (setBoundary allow g).distance_border := by
    rw [hb.1]; exact hm
  have hc1 : Circle = true → 0 < (setBoundary allow g).rdisk := by
    rw [hb.2.1]; exact hc
  have hr1 : Circle = false → 0 < (setBoundary allow g).w ∧ 0 < (setBoundary allow g).h := by
    rw [hb.2.2.1, hb.2.2.2]; exact hr
  obtain ⟨hfit, hPv⟩ := seedLoop_ok _ _ _ _ hseed
  obtain ⟨hPx, -, hPy, -⟩ := fits_bounds hm1 hc1 hr1 hfit
  have h0 := gridInv_seed MinDist (MinDist / lib.sqrt 2) _ gen3 hPx hPy hPv hins
  exact (mainLoop_gridInv lib _ Circle MinDist NewPointsCount NumPoints hM hs0 hs2 hs4
    hm1 hc1 hr1 fuel _ st h0 hloop).apart

/-- An instance of the minimum distance with a root rounded up: a run in the unit
square with margin 1/10 and `MinDist = 1/4` that returns three points. -/
theorem min_distance_invariant_witness :
    [sPoint.new (1 / 2 : ℚ) (1 / 2), sPoint.new (3 / 4) (1 / 2),
      sPoint.new (1 / 2) (3 / 4)].Pairwise
      fun P Q => (1 / 4 : ℚ) * (1 / 4) ≤ GetDistanceSq P Q := by
  obtain ⟨g1, h⟩ := ok_of_toOption (r := GeneratePoissonPoints (testLib testDraws) 8 (1 / 4) 2 3
    false false testGlobals) (a := [sPoint.new (1 / 2 : ℚ) (1 / 2), sPoint.new (3 / 4) (1 / 2),
      sPoint.new (1 / 2) (3 / 4)]) (by decide!)
  exact min_distance_invariant (testLib testDraws) 8 (1 / 4) 2 3 false false testGlobals _ g1
    (by norm_num) (by decide!) (by decide!) (by decide!) (by decide!) (by decide) (by decide!) h

/-- C2. Containment invariant: when `GeneratePoissonPoints` returns, every point
of the returned list passes the containment test of the selected mode,
`IsInCircle` when `Circle` is true and `IsInRectangle` when it is false, evaluated
with the process-wide variables of the generation (`rscat` replaced by 0 when
`allow_disks_on_boundary` is set). -/
theorem containment_invariant (lib : Lib K) (fuel : Nat) (MinDist : K)
    (NewPointsCount : Int) (NumPoints : Nat) (Circle allow : Bool) (g : Globals K)
    (pts : List (sPoint K)) (g1 : Globals K)
    (h : GeneratePoissonPoints lib fuel MinDist NewPointsCount NumPoints Circle allow g =
      .ok (pts, g1)) :
    ∀ P ∈ pts,
      (if Circle then P.IsInCircle (if allow then { g with rscat := 0 } else g)
        else P.IsInRectangle (if allow then { g with rscat := 0 } else g)) = true := by
  obtain ⟨F, gen3, Grid1, st, hseed, -, hloop, rfl, -⟩ := generate_ok h
  have h0 : ∀ P ∈ [F], Fits Circle (setBoundary allow g) P = true := by
    intro P hP
    rw [List.mem_singleton] at hP
    subst hP
    exact (seedLoop_ok _ _ _ _ hseed).1
  exact mainLoop_fits lib _ Circle MinDist _ NewPointsCount NumPoints fuel _ st h0 hloop

/-- Witness of C2: the second point of a run in the unit square with margin
1/10 satisfies `IsInRectangle`. -/
theorem containment_invariant_witness :
    (if false = true then (sPoint.new (3 / 4 : ℚ) (1 / 2)).IsInCircle
        (if false = true then { testGlobals with rscat := 0 } else testGlobals)
      else (sPoint.new (3 / 4 : ℚ) (1 / 2)).IsInRectangle
        (if false = true then { testGlobals with rscat := 0 } else testGlobals)) = true := by
  obtain ⟨g1, h⟩ := ok_of_toOption (r := GeneratePoissonPoints (testLib testDraws) 8 (1 / 4) 2 3
    false false testGlobals) (a := [sPoint.new (1 / 2 : ℚ) (1 / 2), sPoint.new (3 / 4) (1 / 2),
      sPoint.new (1 / 2) (3 / 4)]) (by decide!)
  exact containment_invariant (testLib testDraws) 8 (1 / 4) 2 3 false false testGlobals _ g1 h
    (sPoint.new (3 / 4) (1 / 2)) (by simp)

/-- Counterexample to C3 as stated: with `NumPoints = 2` and two candidates per
expansion, a run in the unit square returns three points. -/
theorem count_bound_counterexample :
    ∃ (pts : List (sPoint ℚ)) (g1 : Globals ℚ),
      GeneratePoissonPoints (testLib testDraws) 8 (1 / 4) 2 2 false false testGlobals =
        .ok (pts, g1) ∧ ¬ pts.length ≤ 2 := by
  obtain ⟨g1, h⟩ := ok_of_toOption (r := GeneratePoissonPoints (testLib testDraws) 8 (1 / 4) 2 2
    false false testGlobals) (a := [sPoint.new (1 / 2 : ℚ) (1 / 2), sPoint.new (3 / 4) (1 / 2),
      sPoint.new (1 / 2) (3 / 4)]) (by decide!)
  exact ⟨_, g1, h, by decide⟩

/-- C3, amended. The target count is tested between expansions only: when
`GeneratePoissonPoints` returns, the list has at most
`max 1 (NumPoints + NewPointsCount - 1)` elements (a negative `NewPointsCount`
counting as 0), and so has the list returned by either driver, with the
`NumPoints` of its formula and 30 candidates per expansion. -/
theorem count_bound (lib : Lib K) (fuel : Nat) (Circle allow : Bool) (g : Globals K)
    (pts : List (sPoint K)) (g1 : Globals K) :
    (∀ (MinDist : K) (NewPointsCount : Int) (NumPoints : Nat),
      GeneratePoissonPoints lib fuel MinDist NewPointsCount NumPoints Circle allow g =
        .ok (pts, g1) →
      pts.length ≤ max 1 (NumPoints + NewPointsCount.toNat - 1)) ∧
    (∀ (seed : Nat) (rdisk_ rscat_ ff_ distance_border_ : K),
      gen_circ_distribution lib fuel seed rdisk_ rscat_ ff_ distance_border_ allow g =
        .ok (pts, g1) →
      pts.length ≤ max 1 (toSizeT (castInt (rdisk_ * rdisk_ * ff_ / (rscat_ * rscat_))) + 29)) ∧
    (∀ (seed : Nat) (w_ h_ rscat_ ff_ distance_border_ : K),
      gen_rect_distribution lib fuel seed w_ h_ rscat_ ff_ distance_border_ allow g =
        .ok (pts, g1) →
      pts.length ≤
        max 1 (toSizeT (castInt (w_ * h_ * ff_ / (rscat_ * rscat_ * lib.pi))) + 29)) := by
  have key : ∀ (Circle : Bool) (g : Globals K) (pts : List (sPoint K)) (g1 : Globals K)
      (MinDist : K) (NewPointsCount : Int) (NumPoints : Nat),
      GeneratePoissonPoints lib fuel MinDist NewPointsCount NumPoints Circle allow g =
        .ok (pts, g1) →
      pts.length ≤ max 1 (NumPoints + NewPointsCount.toNat - 1) := by
    intro Circle g pts g1 MinDist NewPointsCount NumPoints h
    obtain ⟨F, gen3, Grid1, st, -, -, hloop, rfl, -⟩ := generate_ok h
    exact mainLoop_length lib _ Circle MinDist _ NewPointsCount NumPoints _ (le_max_right _ _)
      fuel _ st (le_max_left _ _) hloop
  refine ⟨key Circle g pts g1, ?_, ?_⟩
  · intro seed rdisk_ rscat_ ff_ distance_border_ h
    obtain ⟨qs, hcall, rfl⟩ := gen_circ_ok h
    obtain ⟨d, -, hgen⟩ := callSampler_ok hcall
    have := key _ _ _ _ _ _ _ hgen
    rw [List.length_map]
    exact this
  · intro seed w_ h_ rscat_ ff_ distance_border_ h
    obtain ⟨qs, hcall, rfl⟩ := gen_rect_ok h
    obtain ⟨d, -, hgen⟩ := callSampler_ok hcall
    have := key _ _ _ _ _ _ _ hgen
    rw [List.length_map]
    exact this

/-- Witness of C3, amended: the run with `NumPoints = 2` and two candidates per
expansion returns a list within the bound 3. -/
theorem count_bound_witness :
    [sPoint.new (1 / 2 : ℚ) (1 / 2), sPoint.new (3 / 4) (1 / 2),
      sPoint.new (1 / 2) (3 / 4)].length ≤ max 1 (2 + (2 : Int).toNat - 1) := by
  obtain ⟨g1, h⟩ := ok_of_toOption (r := GeneratePoissonPoints (testLib testDraws) 8 (1 / 4) 2 2
    false false testGlobals) (a := [sPoint.new (1 / 2 : ℚ) (1 / 2), sPoint.new (3 / 4) (1 / 2),
      sPoint.new (1 / 2) (3 / 4)]) (by decide!)
  exact (count_bound (testLib testDraws) 8 false false testGlobals _ g1).1 (1 / 4) 2 2 h

/-- C4. With `allow_disks_on_boundary = false`, a positive `diskRadius` and
non-negative `scatterRadius` and `borderMargin`, every point `(x', y')` returned
by `gen_circ_distribution` satisfies
`sqrt(x'^2 + y'^2) + scatterRadius + borderMargin < diskRadius`, stated as
`sqrt(x'^2 + y'^2) < diskRadius - scatterRadius - borderMargin`; so it lies
within distance `diskRadius` of the centre, distance 350 in Scenario A. -/
theorem circ_points_inside (lib : Lib K) (fuel seed : Nat)
    (rdisk_ rscat_ ff_ distance_border_ : K) (g : Globals K) (pts : List (sPoint K))
    (g1 : Globals K) (hd : 0 < rdisk_) (hs : 0 ≤ rscat_) (hb : 0 ≤ distance_border_)
    (h : gen_circ_distribution lib fuel seed rdisk_ rscat_ ff_ distance_border_ false g =
      .ok (pts, g1)) :
    ∀ p ∈ pts,
      sqrtLt (p.x * p.x + p.y * p.y) (rdisk_ - rscat_ - distance_border_) = true ∧
      p.x * p.x + p.y * p.y < rdisk_ * rdisk_ ∧
      (rdisk_ = 350 → rscat_ = 10 → distance_border_ = 0 →
        p.x * p.x + p.y * p.y < 350 * 350) := by
  obtain ⟨qs, hcall, rfl⟩ := gen_circ_ok h
  obtain ⟨d, -, hgen⟩ := callSampler_ok hcall
  obtain ⟨hfit, hg1⟩ := generate_fits hgen
  have hrd : g1.rdisk = rdisk_ := by rw [hg1]; rfl
  have hbd : g1.distance_border = distance_border_ := by rw [hg1]; rfl
  intro p hp
  rw [List.mem_map] at hp
  obtain ⟨q, hq, rfl⟩ := hp
  have hq1 := hfit q hq
  simp only [Fits, if_true, sPoint.IsInCircle, sqrtLt_eq_true, setBoundary, Bool.false_eq_true,
    if_false, circSetup] at hq1
  obtain ⟨hR, hlt⟩ := circ_rescale_inside hd hs hb hq1.1 hq1.2
  simp only [hrd, hbd]
  have hle : (rdisk_ - rscat_ - distance_border_) * (rdisk_ - rscat_ - distance_border_) ≤
      rdisk_ * rdisk_ := by nlinarith
  refine ⟨sqrtLt_eq_true.mpr ⟨hR, hlt⟩, lt_of_lt_of_le hlt hle, ?_⟩
  intro h1 _ _
  have hh := lt_of_lt_of_le hlt hle
  rw [h1] at hh ⊢
  exact hh

/-- Witness of C4: a run with `diskRadius = 10` and `scatterRadius = 4` returns
the point (5, 0). -/
theorem circ_points_inside_witness :
    sqrtLt ((5 : ℚ) * 5 + 0 * 0) (10 - 4 - 0) = true ∧ (5 : ℚ) * 5 + 0 * 0 < 10 * 10 ∧
      ((10 : ℚ) = 350 → (4 : ℚ) = 10 → (0 : ℚ) = 0 → (5 : ℚ) * 5 + 0 * 0 < 350 * 350) := by
  obtain ⟨g1, h⟩ := ok_of_toOption (r := gen_circ_distribution (testLib [0, 0, 3 / 4, 1 / 2]) 1 1
    10 4 (35 / 100) 0 false testGlobals) (a := [sPoint.new (5 : ℚ) 0]) (by decide!)
  exact circ_points_inside (testLib [0, 0, 3 / 4, 1 / 2]) 1 1 10 4 (35 / 100) 0 testGlobals _ g1
    (by norm_num) (by norm_num) (by norm_num) h (sPoint.new 5 0) (List.mem_singleton.mpr rfl)

/-- C5. With `allow_disks_on_boundary = false`, positive `width` and `height` and
non-negative `scatterRadius` and `borderMargin`, every point `(x', y')` returned
by `gen_rect_distribution` satisfies
`|x'| + scatterRadius + borderMargin ≤ width / 2` and
`|y'| + scatterRadius + borderMargin ≤ height / 2`; in Scenario B it lies in
`[-45, 45]` on both axes. -/
theorem rect_points_inside (lib : Lib K) (fuel seed : Nat)
    (w_ h_ rscat_ ff_ distance_border_ : K) (g : Globals K) (pts : List (sPoint K))
    (g1 : Globals K) (hw : 0 < w_) (hh : 0 < h_) (hs : 0 ≤ rscat_)
    (hb : 0 ≤ distance_border_)
    (h : gen_rect_distribution lib fuel seed w_ h_ rscat_ ff_ distance_border_ false g =
      .ok (pts, g1)) :
    ∀ p ∈ pts,
      |p.x| + rscat_ + distance_border_ ≤ w_ / 2 ∧
      |p.y| + rscat_ + distance_border_ ≤ h_ / 2 ∧
      (w_ = 100 → h_ = 100 → rscat_ = 5 → distance_border_ = 0 →
        (-45 ≤ p.x ∧ p.x ≤ 45) ∧ (-45 ≤ p.y ∧ p.y ≤ 45)) := by
  obtain ⟨qs, hcall, rfl⟩ := gen_rect_ok h
  obtain ⟨d, -, hgen⟩ := callSampler_ok hcall
  obtain ⟨hfit, hg1⟩ := generate_fits hgen
  have hgw : g1.w = w_ := by rw [hg1]; rfl
  have hgh : g1.h = h_ := by rw [hg1]; rfl
  have hbd : g1.distance_border = distance_border_ := by rw [hg1]; rfl
  intro p hp
  rw [List.mem_map] at hp
  obtain ⟨q, hq, rfl⟩ := hp
  have hq1 := hfit q hq
  simp only [Fits, Bool.false_eq_true, if_false, sPoint.IsInRectangle, setBoundary,
    rectSetup, Bool.and_eq_true, decide_eq_true_eq] at hq1
  obtain ⟨⟨⟨hx1, hy1⟩, hx2⟩, hy2⟩ := hq1
  have hx := rect_rescale_inside hw hs hb hx1 hx2
  have hy := rect_rescale_inside hh hs hb hy1 hy2
  simp only [hgw, hgh, hbd]
  refine ⟨hx, hy, ?_⟩
  intro e1 e2 e3 e4
  rw [e1, e3, e4] at hx
  rw [e2, e3, e4] at hy
  rw [e1, e2, e4]
  have hx3 : |q.x * (100 - 0) - (100 - 0) / 2| ≤ 45 := by linarith
  have hy3 : |q.y * (100 - 0) - (100 - 0) / 2| ≤ 45 := by linarith
  exact ⟨abs_le.mp hx3, abs_le.mp hy3⟩

/-- Witness of C5: a run of Scenario B whose first point is the corner of the
shrunk square returns the point (45, 45). -/
theorem rect_points_inside_witness :
    |(45 : ℚ)| + 5 + 0 ≤ 100 / 2 ∧ |(45 : ℚ)| + 5 + 0 ≤ 100 / 2 ∧
      ((100 : ℚ) = 100 → (100 : ℚ) = 100 → (5 : ℚ) = 5 → (0 : ℚ) = 0 →
        (-45 ≤ (45 : ℚ) ∧ (45 : ℚ) ≤ 45) ∧ (-45 ≤ (45 : ℚ) ∧ (45 : ℚ) ≤ 45)) := by
  obtain ⟨g1, h⟩ := ok_of_toOption (r := gen_rect_distribution
    (testLib [0, 0, 19 / 20, 19 / 20]) 37 1 100 100 5 (3 / 10) 0 false testGlobals)
    (a := [sPoint.new (45 : ℚ) 45]) (by decide!)
  exact rect_points_inside (testLib [0, 0, 19 / 20, 19 / 20]) 37 1 100 100 5 (3 / 10) 0
    testGlobals _ g1 (by norm_num) (by norm_num) (by norm_num) (by norm_num) h
    (sPoint.new 45 45) (List.mem_singleton.mpr rfl)

/-- C6, the code at a failing input: `gen_rect_distribution(1, 100, 100, 1,
0.0975, 0, true)` computes `NumPoints = 310`, `MinDistance = 577/12648` and a
grid of 31 rows of cells of size 1/31; its search finds the first point
(19/20, 1/2), the first candidate around it is (1, 1/2), which passes
`IsInRectangle` and is inserted in row 31: the driver ends with an access out of
range and returns no list. -/
theorem rect_driver_no_list :
    (rectSetup (rimLib rimDraws) 1 100 100 1 (39 / 400) 0 testGlobals).NumPoints = 310 ∧
    (match (rectSetup (rimLib rimDraws) 1 100 100 1 (39 / 400) 0 testGlobals).MinDistance with
      | Flt.finite d => decide (d = 577 / 12648)
      | _ => false) = true ∧
    (577 / 12648 : ℚ) / (rimLib rimDraws).sqrt 2 = 1 / 31 ∧
    Int.ceil (1 / ((577 / 12648 : ℚ) / (rimLib rimDraws).sqrt 2)) = 31 ∧
    (seedLoop false
        (setBoundary true (rectSetup (rimLib rimDraws) 1 100 100 1 (39 / 400) 0 testGlobals)) 8
        (RandomFloat (RandomFloat ((rimLib rimDraws).seed 1)).2).2).toOption.map Prod.fst =
      some (sPoint.new (19 / 20) (1 / 2)) ∧
    (sPoint.new (1 : ℚ) (1 / 2)).IsInRectangle
        (setBoundary true (rectSetup (rimLib rimDraws) 1 100 100 1 (39 / 400) 0 testGlobals)) =
      true ∧
    gen_rect_distribution (rimLib rimDraws) 8 1 100 100 1 (39 / 400) 0 true testGlobals =
      .error Fault.range := by
  refine ⟨by decide!, by decide!, by decide!, by decide!, by decide!, by decide!, ?_⟩
  apply error_of_fault
  decide!

/-- C7. Determinism: two calls of `gen_circ_distribution`, and two calls of
`gen_rect_distribution`, with the same seed and the same other arguments give
the same outcome, the same list of points in the same order or the same fault,
whatever values the process-wide variables hold on entry to each call. -/
theorem drivers_deterministic (lib : Lib K) (fuel seed : Nat) (allow : Bool)
    (g g' : Globals K) :
    (∀ (rdisk_ rscat_ ff_ distance_border_ : K),
      (gen_circ_distribution lib fuel seed rdisk_ rscat_ ff_ distance_border_ allow g).map
          Prod.fst =
        (gen_circ_distribution lib fuel seed rdisk_ rscat_ ff_ distance_border_ allow g').map
          Prod.fst) ∧
    (∀ (w_ h_ rscat_ ff_ distance_border_ : K),
      (gen_rect_distribution lib fuel seed w_ h_ rscat_ ff_ distance_border_ allow g).map
          Prod.fst =
        (gen_rect_distribution lib fuel seed w_ h_ rscat_ ff_ distance_border_ allow g').map
          Prod.fst) := by
  constructor
  · intro rdisk_ rscat_ ff_ distance_border_
    rw [gen_circ_map, gen_circ_map]
    congr 1
    apply callSampler_congr
    · intro P
      cases allow <;> rfl
    · cases allow <;> rfl
    · rfl
    · rfl
  · intro w_ h_ rscat_ ff_ distance_border_
    rw [gen_rect_map, gen_rect_map]
    congr 1
    apply callSampler_congr
    · intro P
      cases allow <;> rfl
    · cases allow <;> rfl
    · rfl
    · rfl

/-- C8. Once a first point has been found, the `while` loop of
`GeneratePoissonPoints` ends for every `MinDist`, `NewPointsCount`, `NumPoints`
and generator: `NumPoints - 1` iterations (0 when `NumPoints` is 0) are enough,
more fuel gives the same outcome, and when the loop is left the active list is
empty or the target count is reached. -/
theorem main_loop_terminates (lib : Lib K) (g : Globals K) (Circle : Bool)
    (MinDist CellSize : K) (NewPointsCount : Int) (NumPoints : Nat) (FirstPoint : sPoint K)
    (Grid : sGrid K) (gen : Gen K) :
    mainLoop lib g Circle MinDist CellSize NewPointsCount NumPoints (NumPoints - 1)
        ⟨[FirstPoint], [FirstPoint], Grid, gen⟩ ≠ .error Fault.fuel ∧
    (∀ fuel, NumPoints - 1 ≤ fuel →
      mainLoop lib g Circle MinDist CellSize NewPointsCount NumPoints fuel
          ⟨[FirstPoint], [FirstPoint], Grid, gen⟩ =
        mainLoop lib g Circle MinDist CellSize NewPointsCount NumPoints (NumPoints - 1)
          ⟨[FirstPoint], [FirstPoint], Grid, gen⟩) ∧
    (∀ fuel st,
      mainLoop lib g Circle MinDist CellSize NewPointsCount NumPoints fuel
          ⟨[FirstPoint], [FirstPoint], Grid, gen⟩ = .ok st →
        st.ProcessList = [] ∨ NumPoints ≤ st.SamplePoints.length) := by
  have hne : mainLoop lib g Circle MinDist CellSize NewPointsCount NumPoints (NumPoints - 1)
      ⟨[FirstPoint], [FirstPoint], Grid, gen⟩ ≠ .error Fault.fuel := by
    intro h
    have := mainLoop_error lib g Circle MinDist CellSize NewPointsCount NumPoints _ _ _
      (Nat.le_refl _) (by simp) h
    exact Fault.noConfusion this
  refine ⟨hne, ?_, ?_⟩
  · intro fuel hfuel
    obtain ⟨m, rfl⟩ := Nat.exists_eq_add_of_le hfuel
    exact mainLoop_mono lib g Circle MinDist CellSize NewPointsCount NumPoints m _ _ hne
  · intro fuel st h
    have hex := mainLoop_exit lib g Circle MinDist CellSize NewPointsCount NumPoints _ _ _ h
    simp only [running, Bool.and_eq_false_iff, Bool.not_eq_false', List.isEmpty_iff,
      decide_eq_false_iff_not, not_lt] at hex
    exact hex

/-- C9, the code at a failing input: `gen_circ_distribution(1, 10, 9, 0.35, 0,
false)` computes `NumPoints = 0`, hence `MinDistance = +∞` and a grid without
rows, and the insertion of the first point accesses the grid out of range. -/
theorem degenerate_input_fault :
    (circSetup (testLib testDraws) 1 10 9 (35 / 100) 0 testGlobals).NumPoints = 0 ∧
    gen_circ_distribution (testLib testDraws) 4 1 10 9 (35 / 100) 0 false testGlobals =
      .error Fault.range := by
  refine ⟨by decide!, ?_⟩
  apply error_of_fault
  decide!

/-- C10. Boundary margin toggle: with `allow_disks_on_boundary = true` the
sampler runs as it does with `rscat` replaced by 0, and for a non-negative
`rscat` and positive extents every point that satisfies `IsInCircle`
(`IsInRectangle`) with the original `rscat` satisfies it with `rscat = 0`. -/
theorem boundary_toggle (g : Globals K) (hs : 0 ≤ g.rscat) (hd : 0 < g.rdisk)
    (hw : 0 < g.w) (hh : 0 < g.h) :
    (∀ (lib : Lib K) (fuel : Nat) (MinDist : K) (NewPointsCount : Int) (NumPoints : Nat)
        (Circle : Bool),
      GeneratePoissonPoints lib fuel MinDist NewPointsCount NumPoints Circle true g =
        GeneratePoissonPoints lib fuel MinDist NewPointsCount NumPoints Circle false
          { g with rscat := 0 }) ∧
    (∀ P : sPoint K, P.IsInCircle g = true → P.IsInCircle { g with rscat := 0 } = true) ∧
    (∀ P : sPoint K, P.IsInRectangle g = true →
      P.IsInRectangle { g with rscat := 0 } = true) := by
  refine ⟨fun _ _ _ _ _ _ => rfl, ?_, ?_⟩
  · intro P hP
    simp only [sPoint.IsInCircle, sqrtLt_eq_true] at hP ⊢
    obtain ⟨hpos, hlt⟩ := hP
    have hq : (0 + g.distance_border) / g.rdisk ≤ (g.rscat + g.distance_border) / g.rdisk :=
      div_le_div_of_nonneg_right (by linarith) hd.le
    have hb : 1 - (g.rscat + g.distance_border) / g.rdisk ≤
        1 - (0 + g.distance_border) / g.rdisk := by linarith
    refine ⟨by linarith, lt_of_lt_of_le hlt ?_⟩
    exact mul_le_mul hb hb hpos.le (by linarith)
  · intro P hP
    simp only [sPoint.IsInRectangle, Bool.and_eq_true, decide_eq_true_eq] at hP ⊢
    obtain ⟨⟨⟨h1, h2⟩, h3⟩, h4⟩ := hP
    have hqw : (0 + g.distance_border) / g.w ≤ (g.rscat + g.distance_border) / g.w :=
      div_le_div_of_nonneg_right (by linarith) hw.le
    have hqh : (0 + g.distance_border) / g.h ≤ (g.rscat + g.distance_border) / g.h :=
      div_le_div_of_nonneg_right (by linarith) hh.le
    refine ⟨⟨⟨?_, ?_⟩, ?_⟩, ?_⟩ <;> linarith

/-- Witness of C10: the point (19/20, 1/2) passes `IsInRectangle` in the unit
square with `rscat = 1/20`, and so passes it with `rscat = 0`. -/
theorem boundary_toggle_witness :
    (sPoint.new (19 / 20 : ℚ) (1 / 2)).IsInRectangle
      { ({ testGlobals with rscat := 1 / 20 } : Globals ℚ) with rscat := 0 } = true :=
  (boundary_toggle ({ testGlobals with rscat := 1 / 20 } : Globals ℚ) (by decide!) (by decide!)
    (by decide!) (by decide!)).2.2 (sPoint.new (19 / 20) (1 / 2)) (by decide!)

/-- C11. Unreachable region: with `0 < rdisk ≤ rscat + distance_border` no point
satisfies `IsInCircle`, and with `0 < w ≤ rscat + distance_border` (or the same
for `h`) no point satisfies `IsInRectangle`; the seed loop then uses up every
fuel for every generator, and so does `GeneratePoissonPoints`. -/
theorem unreachable_region (g : Globals K) (Circle : Bool)
    (hc : Circle = true → 0 < g.rdisk ∧ g.rdisk ≤ g.rscat + g.distance_border)
    (hr : Circle = false → (0 < g.w ∧ g.w ≤ g.rscat + g.distance_border) ∨
      (0 < g.h ∧ g.h ≤ g.rscat + g.distance_border)) :
    (∀ P : sPoint K, (if Circle then P.IsInCircle g else P.IsInRectangle g) = false) ∧
    (∀ (fuel : Nat) (gen : Gen K), seedLoop Circle g fuel gen = .error Fault.fuel) ∧
    (∀ (lib : Lib K) (fuel : Nat) (MinDist : K) (NewPointsCount : Int) (NumPoints : Nat),
      GeneratePoissonPoints lib fuel MinDist NewPointsCount NumPoints Circle false g =
        .error Fault.fuel) := by
  have hfit : ∀ P : sPoint K, Fits Circle g P = false := by
    intro P
    cases Circle with
    | true =>
      obtain ⟨hd, hle⟩ := hc rfl
      have hq : 1 ≤ (g.rscat + g.distance_border) / g.rdisk := (one_le_div hd).mpr hle
      simp only [Fits, if_true, sPoint.IsInCircle, sqrtLt, decide_eq_false_iff_not, not_and]
      intro hpos
      linarith
    | false =>
      simp only [Fits, Bool.false_eq_true, if_false, sPoint.IsInRectangle, Bool.and_eq_false_iff,
        decide_eq_false_iff_not, not_le]
      rcases hr rfl with ⟨hw, hle⟩ | ⟨hh, hle⟩
      · have hq : 1 ≤ (g.rscat + g.distance_border) / g.w := (one_le_div hw).mpr hle
        by_cases hx : (g.rscat + g.distance_border) / g.w ≤ P.x
        · exact Or.inl (Or.inr (by linarith))
        · exact Or.inl (Or.inl (Or.inl (not_le.mp hx)))
      · have hq : 1 ≤ (g.rscat + g.distance_border) / g.h := (one_le_div hh).mpr hle
        by_cases hy : (g.rscat + g.distance_border) / g.h ≤ P.y
        · exact Or.inr (by linarith)
        · exact Or.inl (Or.inl (Or.inr (not_le.mp hy)))
  have hloop : ∀ (fuel : Nat) (gen : Gen K), seedLoop Circle g fuel gen = .error Fault.fuel := by
    intro fuel
    induction fuel with
    | zero => intro gen; rfl
    | succ n ih =>
      intro gen
      simp only [seedLoop, hfit, Bool.not_false, if_true, ih]
  refine ⟨?_, hloop, ?_⟩
  · intro P
    have := hfit P
    cases Circle <;> simpa [Fits] using this
  · intro lib fuel MinDist NewPointsCount NumPoints
    unfold GeneratePoissonPoints
    simp only [setBoundary, Bool.false_eq_true, if_false, hloop]

/-- Witness of C11: in the unit disk with `rscat = 1` the seed loop uses up a
fuel of 5. -/
theorem unreachable_region_witness :
    seedLoop true ({ testGlobals with rscat := 1 } : Globals ℚ) 5 testGlobals.gen =
      .error Fault.fuel :=
  (unreachable_region ({ testGlobals with rscat := 1 } : Globals ℚ) true
    (fun _ => ⟨by decide!, by decide!⟩) (fun h => Bool.noConfusion h)).2.1 5 testGlobals.gen

/-- Counterexample to C12 as stated: for `diskRadius = 32768`,
`scatterRadius = 1` and `fillFraction = 1` the quotient is `2^30` and
`NumPoints = 2^30`, but the `int` product `2 * NumPoints` overflows to `-2^31`:
`MinDistance` is a NaN, not `1 / sqrt(2 * NumPoints)`, and the driver returns
without a run of the sampler on a finite `MinDist`. -/
theorem circ_driver_overflow :
    (circSetup (testLib testDraws) 1 32768 1 1 0 testGlobals).NumPoints =
      Int.floor ((32768 : ℚ) * 32768 * 1 / (1 * 1)) ∧
    wrapInt (2 * (circSetup (testLib testDraws) 1 32768 1 1 0 testGlobals).NumPoints) =
      -2 ^ 31 ∧
    (circSetup (testLib testDraws) 1 32768 1 1 0 testGlobals).MinDistance = Flt.nan ∧
    gen_circ_distribution (testLib testDraws) 8 1 32768 1 1 0 false testGlobals =
      .error Fault.nonfinite := by
  have hN : (circSetup (testLib testDraws) 1 32768 1 1 0 testGlobals).NumPoints = 2 ^ 30 := by
    decide!
  have hmd : (circSetup (testLib testDraws) 1 32768 1 1 0 testGlobals).MinDistance =
      Flt.nan := by
    show minDistance _ ((wrapInt (2 *
      (circSetup (testLib testDraws) 1 32768 1 1 0 testGlobals).NumPoints) : Int) : ℚ) = _
    rw [hN]
    unfold minDistance
    rw [if_pos (by decide!)]
  refine ⟨by decide!, by decide!, hmd, ?_⟩
  unfold gen_circ_distribution callSampler
  simp only [hmd]

/-- C12, amended. For a positive `diskRadius`, a positive `scatterRadius` and a
non-negative `fillFraction` whose quotient
`diskRadius^2 * fillFraction / scatterRadius^2` has a floor below `2^30`,
`gen_circ_distribution` computes `NumPoints` as that floor and, when it is at
least 1, returns the rescaled list of the core sampler run with
`MinDist = 1 / sqrt(2 * NumPoints)`, `NewPointsCount = 30`, that `NumPoints` and
`Circle = true`; when it is 0 the quotient `1. / sqrt(0)` is `+∞`.  In Scenario A
`NumPoints = 428`. -/
theorem circ_driver_parameters (lib : Lib K) (fuel seed : Nat)
    (rdisk_ rscat_ ff_ distance_border_ : K) (allow : Bool) (g : Globals K)
    (hd : 0 < rdisk_) (hs : 0 < rscat_) (hf : 0 ≤ ff_)
    (hb : Int.floor (rdisk_ * rdisk_ * ff_ / (rscat_ * rscat_)) < 2 ^ 30) :
    (circSetup lib seed rdisk_ rscat_ ff_ distance_border_ g).NumPoints =
      Int.floor (rdisk_ * rdisk_ * ff_ / (rscat_ * rscat_)) ∧
    0 ≤ Int.floor (rdisk_ * rdisk_ * ff_ / (rscat_ * rscat_)) ∧
    toSizeT (Int.floor (rdisk_ * rdisk_ * ff_ / (rscat_ * rscat_))) =
      (Int.floor (rdisk_ * rdisk_ * ff_ / (rscat_ * rscat_))).toNat ∧
    (1 ≤ Int.floor (rdisk_ * rdisk_ * ff_ / (rscat_ * rscat_)) →
      (circSetup lib seed rdisk_ rscat_ ff_ distance_border_ g).MinDistance =
        Flt.finite
          (1 / lib.sqrt (2 * ((Int.floor (rdisk_ * rdisk_ * ff_ / (rscat_ * rscat_)) : Int) : K))) ∧
      (gen_circ_distribution lib fuel seed rdisk_ rscat_ ff_ distance_border_ allow g).map
          Prod.fst =
        ((GeneratePoissonPoints lib fuel
          (1 / lib.sqrt (2 * ((Int.floor (rdisk_ * rdisk_ * ff_ / (rscat_ * rscat_)) : Int) : K)))
          30 (toSizeT (Int.floor (rdisk_ * rdisk_ * ff_ / (rscat_ * rscat_)))) true allow
          (circSetup lib seed rdisk_ rscat_ ff_ distance_border_ g)).map Prod.fst).map
          fun pts => pts.map fun p =>
            { p with
              x := p.x * 2 * (rdisk_ - distance_border_) - (rdisk_ - distance_border_)
              y := p.y * 2 * (rdisk_ - distance_border_) - (rdisk_ - distance_border_) }) ∧
    (Int.floor (rdisk_ * rdisk_ * ff_ / (rscat_ * rscat_)) = 0 →
      (circSetup lib seed rdisk_ rscat_ ff_ distance_border_ g).MinDistance = Flt.infinity) ∧
    (rdisk_ = 350 → rscat_ = 10 → ff_ = 35 / 100 →
      Int.floor (rdisk_ * rdisk_ * ff_ / (rscat_ * rscat_)) = 428) := by
  have hq : 0 ≤ rdisk_ * rdisk_ * ff_ / (rscat_ * rscat_) :=
    div_nonneg (mul_nonneg (mul_nonneg hd.le hd.le) hf) (mul_nonneg hs.le hs.le)
  have h0 : 0 ≤ Int.floor (rdisk_ * rdisk_ * ff_ / (rscat_ * rscat_)) := Int.floor_nonneg.mpr hq
  have hN : (circSetup lib seed rdisk_ rscat_ ff_ distance_border_ g).NumPoints =
      Int.floor (rdisk_ * rdisk_ * ff_ / (rscat_ * rscat_)) := by
    show castInt (rdisk_ * rdisk_ * ff_ / (rscat_ * rscat_)) = _
    exact castInt_of_nonneg hq (by omega)
  have hmin : (circSetup lib seed rdisk_ rscat_ ff_ distance_border_ g).MinDistance =
      minDistance lib (2 * ((Int.floor (rdisk_ * rdisk_ * ff_ / (rscat_ * rscat_)) : Int) : K)) := by
    show minDistance lib ((wrapInt (2 *
      (circSetup lib seed rdisk_ rscat_ ff_ distance_border_ g).NumPoints) : Int) : K) = _
    rw [hN, wrapInt_of_range (by omega) (by omega)]
    push_cast
    rfl
  refine ⟨hN, h0, ?_, ?_, ?_, ?_⟩
  · unfold toSizeT
    rw [Int.emod_eq_of_lt h0 (by omega)]
  · intro h1
    have hpos : (0 : K) < 2 * ((Int.floor (rdisk_ * rdisk_ * ff_ / (rscat_ * rscat_)) : Int) : K) := by
      have : (0 : Int) < Int.floor (rdisk_ * rdisk_ * ff_ / (rscat_ * rscat_)) := by omega
      have hK : (0 : K) < ((Int.floor (rdisk_ * rdisk_ * ff_ / (rscat_ * rscat_)) : Int) : K) := by
        exact_mod_cast this
      linarith
    have hmd := hmin.trans (minDistance_finite lib hpos)
    refine ⟨hmd, ?_⟩
    rw [gen_circ_map]
    congr 1
    unfold callSampler
    simp only [hmd]
    rw [hN]
    rfl
  · intro hz
    rw [hmin, hz]
    simp [minDistance]
  · intro e1 e2 e3
    rw [e1, e2, e3, Int.floor_eq_iff]
    constructor <;> norm_num

/-- Witness of C12, amended: Scenario A computes `NumPoints = 428`. -/
theorem circ_driver_parameters_witness :
    Int.floor ((350 : ℚ) * 350 * (35 / 100) / (10 * 10)) = 428 :=
  (circ_driver_parameters (testLib testDraws) 8 1 350 10 (35 / 100) 0 false testGlobals
    (by norm_num) (by norm_num) (by norm_num) (by decide!)).2.2.2.2.2 rfl rfl rfl

/-- C13. Windowed search equals exhaustive search: for a positive `MinDist`,
`CellSize = MinDist / sqrt(2.0f)`, a square grid (as `GeneratePoissonPoints`
builds it) in which every stored point sits in the cell that `ImageToGrid`
assigns it, and a candidate with non-negative coordinates, `IsInNeighbourhood`
returns true exactly when some point stored anywhere in the grid is at
distance below `MinDist` from the candidate.  The value supplied for
`sqrt(2.0f)` is assumed positive and at most 4. -/
theorem windowed_equals_exhaustive (lib : Lib K) (grid : sGrid K) (P : sPoint K)
    (MinDist : K) (hM : 0 < MinDist) (hs0 : 0 < lib.sqrt 2) (hs4 : lib.sqrt 2 ≤ 4)
    (hsq : grid.m_W = grid.m_H)
    (hcell : ∀ i j : Int, 0 ≤ i → i < grid.m_H → 0 ≤ j → j < grid.m_W →
      (grid.m_Grid i j).m_Valid = true →
      ImageToGrid (grid.m_Grid i j) (MinDist / lib.sqrt 2) = ⟨i, j⟩)
    (hPx : 0 ≤ P.x) (hPy : 0 ≤ P.y) :
    grid.IsInNeighbourhood P MinDist (MinDist / lib.sqrt 2) =
      grid.exhaustiveSearch P MinDist := by
  have hc : 0 < MinDist / lib.sqrt 2 := div_pos hM hs0
  have hr : MinDist ≤ 4 * (MinDist / lib.sqrt 2) := by
    have h1 : MinDist = MinDist / lib.sqrt 2 * lib.sqrt 2 := by field_simp
    nlinarith
  rw [Bool.eq_iff_iff]
  unfold sGrid.IsInNeighbourhood sGrid.exhaustiveSearch
  simp only [List.any_eq_true, mem_intRange, Bool.and_eq_true, decide_eq_true_eq]
  constructor
  · rintro ⟨i, -, j, -, ⟨hi0, hiW, hj0, hjH⟩, hv, hnear⟩
    exact ⟨i, ⟨hi0, by omega⟩, j, ⟨hj0, by omega⟩, hv, hnear⟩
  · rintro ⟨i, ⟨hi0, hiH⟩, j, ⟨hj0, hjW⟩, hv, hnear⟩
    have hij := hcell i j hi0 hiH hj0 hjW hv
    simp only [ImageToGrid, sGridPoint.mk.injEq] at hij
    obtain ⟨hxi, hyj⟩ := hij
    have hd := hnear
    unfold GetDistanceLt at hd
    rw [sqrtLt_eq_true] at hd
    unfold GetDistanceSq at hd
    have hdx : ((grid.m_Grid i j).x - P.x) * ((grid.m_Grid i j).x - P.x) < MinDist * MinDist := by
      nlinarith [mul_self_nonneg ((grid.m_Grid i j).y - P.y)]
    have hdy : ((grid.m_Grid i j).y - P.y) * ((grid.m_Grid i j).y - P.y) < MinDist * MinDist := by
      nlinarith [mul_self_nonneg ((grid.m_Grid i j).x - P.x)]
    have hwx := cell_in_window hc hPx hM.le hr hdx
    have hwy := cell_in_window hc hPy hM.le hr hdy
    rw [hxi] at hwx
    rw [hyj] at hwy
    refine ⟨i, ?_, j, ?_, ⟨hi0, by omega, hj0, by omega⟩, hv, hnear⟩
    · simp only [ImageToGrid]
      constructor <;> omega
    · simp only [ImageToGrid]
      constructor <;> omega

/-- Witness of C13: in a grid that holds (1/2, 1/2) both searches find a point
closer than 1/4 to the candidate (5/8, 1/2). -/
theorem windowed_equals_exhaustive_witness :
    testGrid.IsInNeighbourhood (sPoint.new (5 / 8) (1 / 2)) (1 / 4)
        ((1 / 4) / (testLib []).sqrt 2) =
      testGrid.exhaustiveSearch (sPoint.new (5 / 8) (1 / 2)) (1 / 4) := by
  refine windowed_equals_exhaustive (testLib []) testGrid (sPoint.new (5 / 8) (1 / 2)) (1 / 4)
    (by norm_num) (by decide!) (by decide!) rfl ?_ (by decide!) (by decide!)
  intro i j _ _ _ _ hv
  by_cases hij : i = 2 ∧ j = 2
  · obtain ⟨rfl, rfl⟩ := hij
    decide!
  · simp [testGrid, hij, sPoint.empty] at hv

/-- One accepted point per cell with a root that is not rounded down: when
`GeneratePoissonPoints` returns, for a positive `MinDist`, a non-negative margin
and positive extents, no two entries of the returned list map to the same cell
under `ImageToGrid`, and the grid with which the `while` loop ends still holds
every returned point in its cell and holds no other point, so that no insertion
overwrote a stored point, provided that the value supplied for `sqrt(2.0f)` is
positive, at most 4 and of square at least 2.  The single-precision value has a
square below 2. -/
theorem one_point_per_cell (lib : Lib K) (fuel : Nat) (MinDist : K)
    (NewPointsCount : Int) (NumPoints : Nat) (Circle allow : Bool) (g : Globals K)
    (pts : List (sPoint K)) (g1 : Globals K)
    (hM : 0 < MinDist) (hs0 : 0 < lib.sqrt 2) (hs2 : 2 ≤ lib.sqrt 2 * lib.sqrt 2)
    (hs4 : lib.sqrt 2 ≤ 4)
    (hm : 0 ≤ (setBoundary allow g).rscat + g.distance_border)
    (hc : Circle = true → 0 < g.rdisk) (hr : Circle = false → 0 < g.w ∧ 0 < g.h)
    (h : GeneratePoissonPoints lib fuel MinDist NewPointsCount NumPoints Circle allow g =
      .ok (pts, g1)) :
    (pts.Pairwise fun P Q =>
      ImageToGrid P (MinDist / lib.sqrt 2) ≠ ImageToGrid Q (MinDist / lib.sqrt 2)) ∧
    ∃ (FirstPoint : sPoint K) (gen3 : Gen K) (Grid1 : sGrid K) (st : Sampler K),
      (sGrid.new (Int.ceil (1 / (MinDist / lib.sqrt 2))) (Int.ceil (1 / (MinDist / lib.sqrt 2)))
        (MinDist / lib.sqrt 2)).Insert FirstPoint = .ok Grid1 ∧
      mainLoop lib (setBoundary allow g) Circle MinDist (MinDist / lib.sqrt 2) NewPointsCount
        NumPoints fuel ⟨[FirstPoint], [FirstPoint], Grid1, gen3⟩ = .ok st ∧
      pts = st.SamplePoints ∧
      (∀ P ∈ pts,
        st.Grid.m_Grid (ImageToGrid P (MinDist / lib.sqrt 2)).x
          (ImageToGrid P (MinDist / lib.sqrt 2)).y = P) ∧
      (∀ i j : Int, (st.Grid.m_Grid i j).m_Valid = true → st.Grid.m_Grid i j ∈ pts) := by
  obtain ⟨F, gen3, Grid1, st, hseed, hins, hloop, rfl, -⟩ := generate_ok h
  obtain ⟨e1, e2, e3, e4⟩ := setBoundary_fields allow g
  rw [← e1] at hm
  rw [← e2] at hc
  rw [← e3, ← e4] at hr
  obtain ⟨hfit, hFv⟩ := seedLoop_ok _ _ _ _ hseed
  obtain ⟨hFx, -, hFy, -⟩ := fits_bounds hm hc hr hfit
  have h0 := gridInv_seed MinDist (MinDist / lib.sqrt 2) _ gen3 hFx hFy hFv hins
  have hI := mainLoop_gridInv lib _ Circle MinDist NewPointsCount NumPoints hM hs0 hs2 hs4
    hm hc hr fuel _ st h0 hloop
  have hseedOnly : ∀ i j : Int, (Grid1.m_Grid i j).m_Valid = true →
      Grid1.m_Grid i j ∈ [F] := by
    intro i j hv
    obtain ⟨-, rfl⟩ := insert_ok hins
    simp only [sGrid.new] at hv ⊢
    split at hv
    · rename_i hij
      rw [if_pos hij]
      exact List.mem_singleton.mpr rfl
    · simp [sPoint.empty] at hv
  have hO := mainLoop_onlySamples lib _ Circle MinDist _ NewPointsCount NumPoints fuel _ st
    hseedOnly hloop
  refine ⟨cells_differ_of_gridInv hM hs0 hs2 hI, F, gen3, Grid1, st, hins, hloop, rfl, ?_, hO⟩
  intro P hP
  exact (hI.stored P hP).2.2.2.2.2.2.2

/-- An instance of one point per cell with a root rounded up: the three points of
a run in the unit square with margin 1/10 and `MinDist = 1/4` lie in three
different cells. -/
theorem one_point_per_cell_witness :
    [sPoint.new (1 / 2 : ℚ) (1 / 2), sPoint.new (3 / 4) (1 / 2),
      sPoint.new (1 / 2) (3 / 4)].Pairwise
      fun P Q => ImageToGrid P ((1 / 4) / (testLib testDraws).sqrt 2) ≠
        ImageToGrid Q ((1 / 4) / (testLib testDraws).sqrt 2) := by
  obtain ⟨g1, h⟩ := ok_of_toOption (r := GeneratePoissonPoints (testLib testDraws) 8 (1 / 4) 2 3
    false false testGlobals) (a := [sPoint.new (1 / 2 : ℚ) (1 / 2), sPoint.new (3 / 4) (1 / 2),
      sPoint.new (1 / 2) (3 / 4)]) (by decide!)
  exact (one_point_per_cell (testLib testDraws) 8 (1 / 4) 2 3 false false testGlobals _ g1
    (by norm_num) (by decide!) (by decide!) (by decide!) (by decide!) (by decide)
    (by decide!) h).1

/-- C15. Active-list invariant: `PopRandom` on a non-empty list returns the
element at the drawn index and leaves the list with that position erased; at
every head of the `while` loop of `GeneratePoissonPoints`, `ProcessList` is a
subsequence of `SamplePoints`, `|SamplePoints| - |ProcessList|` is the number
of iterations performed, and `SamplePoints` is a rearrangement of the popped
points followed by `ProcessList`, so that each accepted point is in the active
list until it is popped, once; the state with which the loop returns is such
a head. -/
theorem active_list_invariant (lib : Lib K) (g : Globals K) (Circle : Bool)
    (MinDist CellSize : K) (NewPointsCount : Int) (NumPoints : Nat) (FirstPoint : sPoint K)
    (Grid : sGrid K) (gen : Gen K) :
    (∀ (Points : List (sPoint K)) (gen0 : Gen K), Points ≠ [] →
      gen0.index gen0.pos % Points.length < Points.length ∧
      ∃ P, Points[gen0.index gen0.pos % Points.length]? = some P ∧
        PopRandom Points gen0 =
          .ok (P, Points.eraseIdx (gen0.index gen0.pos % Points.length),
            { gen0 with pos := gen0.pos + 1 })) ∧
    (∀ (n : Nat) (popped : List (sPoint K)) (st : Sampler K),
      loopHead lib g Circle MinDist CellSize NewPointsCount NumPoints n
          ⟨[FirstPoint], [FirstPoint], Grid, gen⟩ = some (popped, st) →
        st.ProcessList.Sublist st.SamplePoints ∧
        st.SamplePoints.length = st.ProcessList.length + n ∧
        popped.length = n ∧
        (popped ++ st.ProcessList).Perm st.SamplePoints) ∧
    (∀ (fuel : Nat) (stf : Sampler K),
      mainLoop lib g Circle MinDist CellSize NewPointsCount NumPoints fuel
          ⟨[FirstPoint], [FirstPoint], Grid, gen⟩ = .ok stf →
        ∃ n popped, n ≤ fuel ∧
          loopHead lib g Circle MinDist CellSize NewPointsCount NumPoints n
            ⟨[FirstPoint], [FirstPoint], Grid, gen⟩ = some (popped, stf)) := by
  refine ⟨?_, ?_, ?_⟩
  · intro Points gen0 hne
    have hlt : gen0.index gen0.pos % Points.length < Points.length :=
      Nat.mod_lt _ (List.length_pos.mpr hne)
    refine ⟨hlt, Points[gen0.index gen0.pos % Points.length], ?_, ?_⟩
    · exact List.getElem?_eq_getElem hlt
    · unfold PopRandom
      simp only [List.getElem?_eq_getElem hlt]
  · intro n popped st h
    obtain ⟨h1, h2, h3, h4⟩ := loopHead_inv lib g Circle MinDist CellSize NewPointsCount
      NumPoints n _ st popped h
    simp only [List.length_singleton] at h3
    refine ⟨h1 (List.Sublist.refl _), by omega, h2, ?_⟩
    have := h4 [] (List.Perm.refl _)
    simpa using this
  · intro fuel stf h
    exact mainLoop_is_head lib g Circle MinDist CellSize NewPointsCount NumPoints fuel _ stf h

/-- Witness of C15: from the first point (1/2, 1/2) the `while` loop has a head
after one iteration, where `ProcessList` is a subsequence of `SamplePoints`
that is one element shorter. -/
theorem active_list_invariant_witness :
    ∃ popped st,
      loopHead (testLib []) testGlobals false (1 / 4) (102 / 577) 2 3 1
          ⟨[sPoint.new (1 / 2) (1 / 2)], [sPoint.new (1 / 2) (1 / 2)], testGrid,
            Gen.ofList [0, 0, 0, 0, 1 / 4]⟩ = some (popped, st) ∧
        st.ProcessList.Sublist st.SamplePoints ∧
        st.SamplePoints.length = st.ProcessList.length + 1 := by
  obtain ⟨v, h⟩ := Option.isSome_iff_exists.mp
    (by decide! : (loopHead (testLib []) testGlobals false (1 / 4) (102 / 577) 2 3 1
      ⟨[sPoint.new (1 / 2) (1 / 2)], [sPoint.new (1 / 2) (1 / 2)], testGrid,
        Gen.ofList [0, 0, 0, 0, 1 / 4]⟩).isSome = true)
  have hw := (active_list_invariant (testLib []) testGlobals false (1 / 4) (102 / 577) 2 3
    (sPoint.new (1 / 2) (1 / 2)) testGrid (Gen.ofList [0, 0, 0, 0, 1 / 4])).2.1 1 v.1 v.2 h
  exact ⟨v.1, v.2, h, hw.1, hw.2.1⟩

/-- C16, the code at a failing input: in rectangle mode with a margin of 0 the
point (1, 1/2) satisfies `IsInRectangle`; with `MinDist = 11863283/33554432`,
the single-precision number nearest to the quarter of the root of 2, and the
single-precision value of `sqrt(2.0f)`, the cell size is 1/4, the grid has
`ceil(4) = 4` rows, and `ImageToGrid` gives the point row 4; the insertion fails,
and a run that accepts this point as a candidate ends with an access out of
range. -/
theorem grid_write_out_of_range :
    (sPoint.new (1 : ℚ) (1 / 2)).IsInRectangle (setBoundary true testGlobals) = true ∧
    (11863283 / 33554432 : ℚ) / (floatLib edgeDraws).sqrt 2 = 1 / 4 ∧
    Int.ceil (1 / ((11863283 / 33554432 : ℚ) / (floatLib edgeDraws).sqrt 2)) = 4 ∧
    (ImageToGrid (sPoint.new (1 : ℚ) (1 / 2))
      ((11863283 / 33554432) / (floatLib edgeDraws).sqrt 2)).x = 4 ∧
    (sGrid.new 4 4 (1 / 4 : ℚ)).Insert (sPoint.new 1 (1 / 2)) = .error Fault.range ∧
    GeneratePoissonPoints (floatLib edgeDraws) 8 (11863283 / 33554432) 1 2 false true
      { testGlobals with gen := Gen.ofList edgeDraws } = .error Fault.range := by
  refine ⟨by decide!, by decide!, by decide!, by decide!, ?_, ?_⟩
  · apply error_of_fault
    decide!
  · apply error_of_fault
    decide!

/-- C17. The target count is tested between expansions only, and one expansion
adds at most `NewPointsCount` points: for `NewPointsCount ≥ 0` the list returned
by `GeneratePoissonPoints` has at most `max 1 (NumPoints - 1 + NewPointsCount)`
elements. -/
theorem expansion_overshoot_bound (lib : Lib K) (fuel : Nat) (MinDist : K)
    (NewPointsCount : Int) (NumPoints : Nat) (Circle allow : Bool) (g : Globals K)
    (pts : List (sPoint K)) (g1 : Globals K) (hk : 0 ≤ NewPointsCount)
    (h : GeneratePoissonPoints lib fuel MinDist NewPointsCount NumPoints Circle allow g =
      .ok (pts, g1)) :
    (pts.length : Int) ≤ max 1 ((NumPoints : Int) - 1 + NewPointsCount) ∧
    ∀ (CellSize : K) (Point : sPoint K) (st st1 : Sampler K),
      expand lib (setBoundary allow g) Circle MinDist CellSize Point NewPointsCount.toNat st =
        .ok st1 →
      (st1.SamplePoints.length : Int) ≤ st.SamplePoints.length + NewPointsCount := by
  constructor
  · obtain ⟨F, gen3, Grid1, st, -, -, hloop, rfl, -⟩ := generate_ok h
    have hlen := mainLoop_length lib _ Circle MinDist _ NewPointsCount NumPoints
      (max 1 (NumPoints + NewPointsCount.toNat - 1)) (le_max_right _ _) fuel _ st
      (le_max_left _ _) hloop
    have hcast : ((NewPointsCount.toNat : Nat) : Int) = NewPointsCount := Int.toNat_of_nonneg hk
    rcases le_max_iff.mp hlen with h1 | h1
    · exact le_max_of_le_left (by exact_mod_cast h1)
    · by_cases hz : NumPoints + NewPointsCount.toNat = 0
      · rw [hz] at h1
        exact le_max_of_le_left (by omega)
      · exact le_max_of_le_right (by omega)
  · intro CellSize Point st st1 he
    have h1 := (expand_lengths lib _ Circle MinDist CellSize Point _ _ _ he).1
    have hcast : ((NewPointsCount.toNat : Nat) : Int) = NewPointsCount := Int.toNat_of_nonneg hk
    omega

/-- Witness of C17: the run with `NumPoints = 2` and two candidates per
expansion returns three points, the bound `max 1 (2 - 1 + 2)`. -/
theorem expansion_overshoot_bound_witness :
    (([sPoint.new (1 / 2 : ℚ) (1 / 2), sPoint.new (3 / 4) (1 / 2),
      sPoint.new (1 / 2) (3 / 4)].length : Nat) : Int) ≤ max 1 (((2 : Nat) : Int) - 1 + 2) := by
  obtain ⟨g1, h⟩ := ok_of_toOption (r := GeneratePoissonPoints (testLib testDraws) 8 (1 / 4) 2 2
    false false testGlobals) (a := [sPoint.new (1 / 2 : ℚ) (1 / 2), sPoint.new (3 / 4) (1 / 2),
      sPoint.new (1 / 2) (3 / 4)]) (by decide!)
  exact (expansion_overshoot_bound (testLib testDraws) 8 (1 / 4) 2 2 false false testGlobals _ g1
    (by decide) h).1

end Claims

section ClaimsOrdered

variable {K : Type} [LinearOrderedField K]

/-- C18. For a positive `MinDist` and a first draw `R1` in `[0, 1)`,
`GenerateRandomPointAround(P, MinDist)` returns the point
`P + MinDist * (R1 + 1) * (cos(2 * pi * R2), sin(2 * pi * R2))` built from two
consecutive draws; its distance from `P` is `MinDist * (R1 + 1)`, stated on the
squares, which lies in `[MinDist, 2 * MinDist)`.  The cosine and the sine of the
angle are assumed to lie on the unit circle. -/
theorem random_point_around (lib : Lib K) (P : sPoint K) (MinDist : K) (gen : Gen K)
    (hM : 0 < MinDist) (h0 : 0 ≤ gen.real gen.pos) (h1 : gen.real gen.pos < 1)
    (hcs : lib.cos (2 * lib.pi * gen.real (gen.pos + 1)) *
        lib.cos (2 * lib.pi * gen.real (gen.pos + 1)) +
      lib.sin (2 * lib.pi * gen.real (gen.pos + 1)) *
        lib.sin (2 * lib.pi * gen.real (gen.pos + 1)) = 1) :
    (GenerateRandomPointAround lib P MinDist gen).1 =
      sPoint.new
        (P.x + MinDist * (gen.real gen.pos + 1) * lib.cos (2 * lib.pi * gen.real (gen.pos + 1)))
        (P.y + MinDist * (gen.real gen.pos + 1) * lib.sin (2 * lib.pi * gen.real (gen.pos + 1))) ∧
    (GenerateRandomPointAround lib P MinDist gen).2.pos = gen.pos + 2 ∧
    GetDistanceSq P (GenerateRandomPointAround lib P MinDist gen).1 =
      MinDist * (gen.real gen.pos + 1) * (MinDist * (gen.real gen.pos + 1)) ∧
    MinDist ≤ MinDist * (gen.real gen.pos + 1) ∧
    MinDist * (gen.real gen.pos + 1) < 2 * MinDist := by
  refine ⟨rfl, rfl, ?_, ?_, ?_⟩
  · exact around_distSq lib P MinDist gen hcs
  · nlinarith
  · nlinarith

/-- Witness of C18: around (1/2, 1/2) with `MinDist = 1/4` the draws 0 and 1/4
give a point at squared distance `(1/4 * (0 + 1))^2`. -/
theorem random_point_around_witness :
    GetDistanceSq (sPoint.new (1 / 2) (1 / 2))
        (GenerateRandomPointAround (testLib []) (sPoint.new (1 / 2) (1 / 2)) (1 / 4)
          (Gen.ofList [0, 1 / 4])).1 =
      1 / 4 * ((Gen.ofList [0, 1 / 4]).real (Gen.ofList [0, 1 / 4]).pos + 1) *
        (1 / 4 * ((Gen.ofList [0, 1 / 4]).real (Gen.ofList [0, 1 / 4]).pos + 1)) :=
  (random_point_around (testLib []) (sPoint.new (1 / 2) (1 / 2)) (1 / 4) (Gen.ofList [0, 1 / 4])
    (by norm_num) (by decide!) (by decide!) (by decide!)).2.2.1

end ClaimsOrdered

end Poisson
